import Mathlib

/-!
Verification of the skill-spec repository (backend/skillspec) against its
natural-language specification.

The Python sources are shallowly embedded over `Str := List Char`:
* `preservation.py` — marker-based document parser and merger
  (`parse_skill_md`, `wrap_generated_block`, `merge_with_preservation`);
* `models.py` — the `DecisionRules.extract_rules` normalizer, the
  cross-reference validator of `SkillSpec`, and a `modelAccepts` predicate
  embedding acceptance by the typed `SkillSpec` pydantic model;
* `validator/schema.py` — `SchemaValidator.validate` (with `schema_path = None`,
  the default, so the optional jsonschema branch is dead code);
* `validator/quality.py` — `QualityValidator.validate` with the default
  patterns and default scan scope.

Python dictionaries are embedded as insertion-ordered association lists
(`PyVal.vDict`), matching Python 3.7+ semantics; JSON-shaped values are
used for fields (no lax string-to-number coercions).  Python `str.strip`,
`str.split("\n")` and substring containment are embedded over `List Char`
with ASCII whitespace.
-/

namespace SkillSpecProof

/-- A Python string, embedded as its list of characters. -/
abbrev Str := List Char

/-- The newline character. -/
def nlChar : Char := '\n'

/-- ASCII whitespace as recognized by Python's `str.strip()` and `\s`. -/
def pyIsSpace (c : Char) : Bool :=
  c = ' ' || c = '\t' || c = '\n' || c = '\r' || c = '\x0b' || c = '\x0c'

/-- Python `s.strip()`: drop leading and trailing whitespace. -/
def strip (s : Str) : Str :=
  ((s.dropWhile pyIsSpace).reverse.dropWhile pyIsSpace).reverse

/-- Python `s.split("\n")`: split on every newline; the empty string
yields one empty piece. -/
def splitLines : Str → List Str
  | [] => [[]]
  | c :: rest =>
    if c = nlChar then [] :: splitLines rest
    else
      match splitLines rest with
      | [] => [[c]]
      | l :: ls => (c :: l) :: ls

/-- Python `"\n".join(lines)`. -/
def joinLines : List Str → Str
  | [] => []
  | [l] => l
  | l :: l' :: rest => l ++ nlChar :: joinLines (l' :: rest)

/-- Python `needle in hay` on strings: substring containment. -/
def containsSub (hay needle : Str) : Bool :=
  if needle.isPrefixOf hay then true
  else
    match hay with
    | [] => false
    | _ :: t => containsSub t needle

/-- Python `s.startswith(p)`. -/
def startsWith (s p : Str) : Bool := p.isPrefixOf s

/-! ### preservation.py: markers and block model -/

/-- `GENERATED_START` from preservation.py. -/
def GENERATED_START : Str := "<!-- skillspec:generated:start -->".data

/-- `GENERATED_END` from preservation.py. -/
def GENERATED_END : Str := "<!-- skillspec:generated:end -->".data

/-- `MANUAL_START` from preservation.py. -/
def MANUAL_START : Str := "<!-- skillspec:manual:start -->".data

/-- `MANUAL_END` from preservation.py. -/
def MANUAL_END : Str := "<!-- skillspec:manual:end -->".data

/-- The four marker strings. -/
def allMarkers : List Str := [GENERATED_START, GENERATED_END, MANUAL_START, MANUAL_END]

/-- `BlockType` from preservation.py. -/
inductive BlockType where
  | GENERATED
  | MANUAL
  | UNMARKED
deriving DecidableEq, Repr

/-- `ContentBlock` from preservation.py (the checksum and line-number fields
are never assigned by the parser or the merger and are omitted). -/
structure ContentBlock where
  block_type : BlockType
  content : Str
  section_name : Option Str := none
deriving DecidableEq, Repr

/-- `ParsedDocument` from preservation.py. -/
structure ParsedDocument where
  blocks : List ContentBlock := []
  raw_content : Str := []
  has_markers : Bool := false
deriving DecidableEq, Repr

/-- `ParsedDocument.get_manual_blocks`. -/
def ParsedDocument.get_manual_blocks (d : ParsedDocument) : List ContentBlock :=
  d.blocks.filter (fun b => b.block_type = BlockType.MANUAL)

/-- `ParsedDocument.get_generated_blocks`. -/
def ParsedDocument.get_generated_blocks (d : ParsedDocument) : List ContentBlock :=
  d.blocks.filter (fun b => b.block_type = BlockType.GENERATED)

/-- `PreservationResult` from preservation.py. -/
structure PreservationResult where
  success : Bool
  merged_content : Str
  manual_blocks_preserved : Nat := 0
  generated_blocks_updated : Nat := 0
  warnings : List Str := []
  errors : List Str := []
deriving DecidableEq, Repr

/-! ### preservation.py: parse_skill_md -/

/-- The loop state of `parse_skill_md`: accumulated blocks, the lines of the
current block, the current block type and the current section hint. -/
structure ParseState where
  blocks : List ContentBlock
  cur : List Str
  curType : BlockType
  curSection : Option Str
deriving DecidableEq, Repr

/-- One iteration of the line loop in `parse_skill_md`. -/
def parseLine (st : ParseState) (line : Str) : ParseState :=
  if containsSub line GENERATED_START then
    { blocks :=
        if st.cur ≠ [] then
          st.blocks ++ [⟨st.curType, joinLines st.cur, st.curSection⟩]
        else st.blocks
      cur := [], curType := BlockType.GENERATED, curSection := st.curSection }
  else if containsSub line MANUAL_START then
    { blocks :=
        if st.cur ≠ [] then
          st.blocks ++ [⟨st.curType, joinLines st.cur, st.curSection⟩]
        else st.blocks
      cur := [], curType := BlockType.MANUAL, curSection := st.curSection }
  else if containsSub line GENERATED_END || containsSub line MANUAL_END then
    { blocks := st.blocks ++ [⟨st.curType, joinLines st.cur, st.curSection⟩]
      cur := [], curType := BlockType.UNMARKED, curSection := st.curSection }
  else
    let sect :=
      if startsWith line "## ".data then some (strip (line.drop 3))
      else if startsWith line "# ".data then some (strip (line.drop 2))
      else st.curSection
    { blocks := st.blocks, cur := st.cur ++ [line], curType := st.curType,
      curSection := sect }

/-- `parse_skill_md` from preservation.py. -/
def parse_skill_md (content : Str) : ParsedDocument :=
  let has_generated := containsSub content GENERATED_START
  let has_manual := containsSub content MANUAL_START
  let has_markers := has_generated || has_manual
  if !has_markers then
    { blocks := [⟨BlockType.UNMARKED, content, none⟩], raw_content := content,
      has_markers := false }
  else
    let fin := (splitLines content).foldl parseLine ⟨[], [], BlockType.UNMARKED, none⟩
    let blocks :=
      fin.blocks ++
        (if fin.cur ≠ [] then [⟨fin.curType, joinLines fin.cur, fin.curSection⟩] else [])
    { blocks := blocks, raw_content := content, has_markers := true }

/-! ### preservation.py: frontmatter regex

`wrap_generated_block` and `merge_with_preservation` match the anchored
regex `^(---\s*\n.*?\n---\s*\n)` (DOTALL) against the fresh content.  The
embedding below implements this specific pattern with Python's backtracking
preferences: the greedy `\s*\n` consumes the whitespace run up to (and
including) its last newline, backtracking outward; the lazy `.*?` takes the
shortest body.  It returns the length of the match. -/

/-- The index of the last newline in a string, if any. -/
def lastNlIdx : Str → Option Nat
  | [] => none
  | c :: rest =>
    match lastNlIdx rest with
    | some k => some (k + 1)
    | none => if c = nlChar then some 0 else none

/-- Match `\s*\n` greedily at the head of `v`: consume whitespace up to and
including the last newline of the leading whitespace run. -/
def matchWsNl (v : Str) : Option Nat :=
  (lastNlIdx (v.takeWhile pyIsSpace)).map (· + 1)

/-- Match `.*?\n---\s*\n` at the head of `u` (lazy body, shortest first);
returns the total number of characters consumed. -/
def matchFmTail : Str → Option Nat
  | [] => none
  | u@(_ :: rest) =>
    if startsWith u "\n---".data then
      match matchWsNl (u.drop 4) with
      | some j => some (4 + j)
      | none => (matchFmTail rest).map (· + 1)
    else (matchFmTail rest).map (· + 1)

/-- Try the candidate lengths of the first `\s*\n` (largest first, as the
greedy `\s*` backtracks). -/
def tryFmHeads (t : Str) : List Nat → Option Nat
  | [] => none
  | k :: ks =>
    match matchFmTail (t.drop k) with
    | some m => some (k + m)
    | none => tryFmHeads t ks

/-- Candidate consumptions for the leading `\s*\n` of the frontmatter regex:
lengths `j+1` for every newline position `j` in the leading whitespace run,
in decreasing order. -/
def fmHeadCandidates (t : Str) : List Nat :=
  let run := t.takeWhile pyIsSpace
  ((List.range run.length).filter (fun j => run.getD j ' ' = nlChar)).reverse.map (· + 1)

/-- The length of the match of `^(---\s*\n.*?\n---\s*\n)` against `s`,
if any. -/
def frontmatterLen (s : Str) : Option Nat :=
  if startsWith s "---".data then
    (tryFmHeads (s.drop 3) (fmHeadCandidates (s.drop 3))).map (· + 3)
  else none

/-- `frontmatter_pattern.match(content)`: the matched frontmatter and the
remaining content. -/
def frontmatterSplit (s : Str) : Option (Str × Str) :=
  (frontmatterLen s).map (fun n => (s.take n, s.drop n))

/-! ### preservation.py: wrap_generated_block and merge_with_preservation -/

/-- `wrap_generated_block` from preservation.py (the unused `section_name`
parameter is dropped). -/
def wrap_generated_block (content : Str) : Str :=
  match frontmatterSplit content with
  | some (fm, rest) =>
    fm ++ GENERATED_START ++ nlChar :: rest ++ nlChar :: GENERATED_END
  | none =>
    GENERATED_START ++ nlChar :: content ++ nlChar :: GENERATED_END

/-- The warning emitted by force mode. -/
def forceWarning : Str := "Force mode: all existing content replaced".data

/-- The warning emitted when the previous document has no markers. -/
def noMarkersWarning : Str :=
  "No markers found in existing content - wrapped new content in generated markers".data

/-- `merge_with_preservation` from preservation.py. -/
def merge_with_preservation (existing_content new_generated_content : Str)
    (force : Bool) : PreservationResult :=
  if force then
    { success := true, merged_content := new_generated_content,
      warnings := [forceWarning] }
  else
    let existing_doc := parse_skill_md existing_content
    if !existing_doc.has_markers then
      { success := true, merged_content := wrap_generated_block new_generated_content,
        warnings := [noMarkersWarning] }
    else
      let manual_blocks := existing_doc.get_manual_blocks
      let headLines : List Str :=
        match frontmatterSplit new_generated_content with
        | some (fm, rest) =>
          [strip fm, [], GENERATED_START, strip rest, GENERATED_END]
        | none =>
          [GENERATED_START, strip new_generated_content, GENERATED_END]
      let merged_lines :=
        headLines ++
          manual_blocks.flatMap
            (fun b => [[], MANUAL_START, strip b.content, MANUAL_END])
      { success := true, merged_content := joinLines merged_lines,
        manual_blocks_preserved := manual_blocks.length,
        generated_blocks_updated := 1, warnings := [] }

/-! ### Python values

JSON-shaped Python values, for embedding the dict/list structures that
`models.py` and the validators operate on.  Dictionaries are insertion-ordered
association lists (Python 3.7+ semantics; well-formed Python dicts have
distinct keys).  Floats are not modelled; numeric fields take `vInt`. -/

/-- A Python value. -/
inductive PyVal where
  | vNone
  | vBool (b : Bool)
  | vInt (n : Int)
  | vStr (s : Str)
  | vList (xs : List PyVal)
  | vDict (entries : List (Str × PyVal))

/-- Python `d[k]` / `d.get(k)`: look a key up in a dict (first occurrence). -/
def lookupKey (d : List (Str × PyVal)) (k : Str) : Option PyVal :=
  (d.find? (fun e => e.1 = k)).map (·.2)

/-- Python `k in d`. -/
def hasKey (d : List (Str × PyVal)) (k : Str) : Bool :=
  (lookupKey d k).isSome

/-- Decimal rendering of a natural number, as Python would print it. -/
def natToStr (n : Nat) : Str := (Nat.repr n).data

/-! ### models.py: DecisionRules.extract_rules -/

/-- One rule of `ensure_rule_ids`: a dict rule missing an `"id"` key gets
the id `rule_<i>`; `{**rule, "id": v}` with `"id"` absent appends the new
entry at the end.  Non-dict entries pass through. -/
def ensureRuleId (i : Nat) : PyVal → PyVal
  | PyVal.vDict d =>
    if hasKey d "id".data then PyVal.vDict d
    else PyVal.vDict (d ++ [("id".data, PyVal.vStr ("rule_".data ++ natToStr i))])
  | r => r

/-- The `enumerate` loop of `ensure_rule_ids`, carrying the running index
(`start_index + i`). -/
def ensureRuleIdsFrom (i : Nat) : List PyVal → List PyVal
  | [] => []
  | r :: rest => ensureRuleId i r :: ensureRuleIdsFrom (i + 1) rest

/-- `ensure_rule_ids` (inner function of `DecisionRules.extract_rules`;
`start_index` is always 0 at its call sites): give every dict rule missing
an `"id"` key the id `rule_<index within the list>`. -/
def ensure_rule_ids (rules_list : List PyVal) : List PyVal :=
  ensureRuleIdsFrom 0 rules_list

/-- `DecisionRules.extract_rules` from models.py: normalize any of the three
accepted decision-rule encodings into the canonical
`{"_config": ..., "rules": ...}` form. -/
def extract_rules (values : PyVal) : PyVal :=
  match values with
  | PyVal.vDict entries =>
    let config := (lookupKey entries "_config".data).getD (PyVal.vDict [])
    match lookupKey entries "rules".data with
    | some rules =>
      let rules' :=
        match rules with
        | PyVal.vList l => PyVal.vList (ensure_rule_ids l)
        | r => r
      PyVal.vDict [("_config".data, config), ("rules".data, rules')]
    | none =>
      let rules := entries.filterMap (fun e =>
        if e.1 = "_config".data then none
        else
          match e.2 with
          | PyVal.vDict d =>
            some (if hasKey d "id".data then PyVal.vDict d
                  else PyVal.vDict (d ++ [("id".data, PyVal.vStr e.1)]))
          | _ => none)
      PyVal.vDict [("_config".data, config), ("rules".data, PyVal.vList rules)]
  | PyVal.vList l =>
    PyVal.vDict [("_config".data, PyVal.vDict []),
                 ("rules".data, PyVal.vList (ensure_rule_ids l))]
  | v => v

/-! ### models.py: field patterns and enums -/

/-- Lowercase ASCII letter. -/
def isLowerC (c : Char) : Bool := 'a' ≤ c && c ≤ 'z'

/-- Uppercase ASCII letter. -/
def isUpperC (c : Char) : Bool := 'A' ≤ c && c ≤ 'Z'

/-- ASCII digit. -/
def isDigitC (c : Char) : Bool := '0' ≤ c && c ≤ '9'

/-- Split a string on a separator character (Python `s.split(sep)`). -/
def splitOnChar (sep : Char) : Str → List Str
  | [] => [[]]
  | c :: rest =>
    if c = sep then [] :: splitOnChar sep rest
    else
      match splitOnChar sep rest with
      | [] => [[c]]
      | l :: ls => (c :: l) :: ls

/-- `KEBAB_CASE_PATTERN`: `^[a-z][a-z0-9]*(-[a-z0-9]+)*$`. -/
def isKebab (s : Str) : Bool :=
  match splitOnChar '-' s with
  | [] => false
  | seg :: segs =>
    (match seg with
     | [] => false
     | c :: rest => isLowerC c && rest.all (fun d => isLowerC d || isDigitC d)) &&
    segs.all (fun t => !t.isEmpty && t.all (fun d => isLowerC d || isDigitC d))

/-- `SNAKE_CASE_PATTERN`: `^[a-z][a-z0-9_]*$`. -/
def isSnake (s : Str) : Bool :=
  match s with
  | [] => false
  | c :: rest => isLowerC c && rest.all (fun d => isLowerC d || isDigitC d || d = '_')

/-- `UPPER_SNAKE_CASE_PATTERN`: `^[A-Z][A-Z0-9_]*$`. -/
def isUpperSnake (s : Str) : Bool :=
  match s with
  | [] => false
  | c :: rest => isUpperC c && rest.all (fun d => isUpperC d || isDigitC d || d = '_')

/-- `SEMVER_PATTERN`: `^\d+\.\d+\.\d+$`. -/
def isSemver (s : Str) : Bool :=
  match splitOnChar '.' s with
  | [a, b, c] => [a, b, c].all (fun p => !p.isEmpty && p.all isDigitC)
  | _ => false

/-- String membership in a list of string literals. -/
def memStr (xs : List String) (s : Str) : Bool := xs.any (fun x => x.data = s)

/-! ### models.py: acceptance by the typed pydantic models

`modelAccepts` embeds `SkillSpec.model_validate` as a boolean predicate over
`PyVal` dicts: field presence, `extra` policy, type shape, the field and
model validators, and the `validate_cross_references` after-validator.
Values are taken JSON-shaped (no lax string-to-number coercion; `vInt`
stands for the numeric fields). -/

/-- Value is a string. -/
def isStrV : PyVal → Bool
  | PyVal.vStr _ => true
  | _ => false

/-- Value is a dict. -/
def isDictV : PyVal → Bool
  | PyVal.vDict _ => true
  | _ => false

/-- The string content, if a string. -/
def asStr? : PyVal → Option Str
  | PyVal.vStr s => some s
  | _ => none

/-- Value is a list whose elements all satisfy `p`. -/
def isListOf (p : PyVal → Bool) : PyVal → Bool
  | PyVal.vList xs => xs.all p
  | _ => false

/-- All dict keys belong to the allowed set (`extra = "forbid"`). -/
def keysSubset (d : List (Str × PyVal)) (allowed : List String) : Bool :=
  d.all (fun e => allowed.any (fun k => k.data = e.1))

/-- An optional field: absent or `None` or satisfying `p`. -/
def optField (d : List (Str × PyVal)) (k : String) (p : PyVal → Bool) : Bool :=
  match lookupKey d k.data with
  | none => true
  | some PyVal.vNone => true
  | some v => p v

/-- A required field: present and satisfying `p` (`None` must satisfy `p` too,
which the shape checks below never allow). -/
def reqField (d : List (Str × PyVal)) (k : String) (p : PyVal → Bool) : Bool :=
  match lookupKey d k.data with
  | some v => p v
  | none => false

/-- An optional int field with a `ge`/`le` range (non-`Optional`, so `None`
is rejected when the key is present). -/
def intRangeField (d : List (Str × PyVal)) (k : String) (lo hi : Int) : Bool :=
  match lookupKey d k.data with
  | none => true
  | some (PyVal.vInt n) => lo ≤ n && n ≤ hi
  | some _ => false

/-- A string satisfying `q`. -/
def strSuch (q : Str → Bool) : PyVal → Bool
  | PyVal.vStr s => q s
  | _ => false

/-- `ProgressiveDisclosure` acceptance. -/
def pdOK : PyVal → Bool
  | PyVal.vDict d =>
    keysSubset d ["metadata_tokens", "instructions_tokens", "max_lines"] &&
    intRangeField d "metadata_tokens" 50 200 &&
    intRangeField d "instructions_tokens" 500 5000 &&
    intRangeField d "max_lines" 100 1000
  | _ => false

/-- `MetaConfig` acceptance. -/
def metaOK : PyVal → Bool
  | PyVal.vDict d =>
    keysSubset d ["content_language", "mixed_language_strategy", "format",
                  "token_budget", "agentskills_compat", "progressive_disclosure"] &&
    (match lookupKey d "content_language".data with
     | none => true
     | some v => strSuch (memStr ["en", "zh", "auto"]) v) &&
    (match lookupKey d "mixed_language_strategy".data with
     | none => true
     | some v => strSuch (memStr ["union", "segment_detect", "primary"]) v) &&
    optField d "format" (strSuch (memStr ["full", "minimal"])) &&
    (match lookupKey d "token_budget".data with
     | none => true
     | some PyVal.vNone => true
     | some (PyVal.vInt n) => 50 ≤ n && n ≤ 2000
     | some _ => false) &&
    (match lookupKey d "agentskills_compat".data with
     | none => true
     | some (PyVal.vBool _) => true
     | some _ => false) &&
    optField d "progressive_disclosure" pdOK
  | _ => false

/-- `SkillMetadata` acceptance. -/
def skillOK : PyVal → Bool
  | PyVal.vDict d =>
    keysSubset d ["name", "version", "purpose", "owner", "category", "complexity",
                  "tools_required", "personas", "license", "compatibility",
                  "allowed_tools", "metadata"] &&
    reqField d "name" (strSuch (fun s =>
      1 ≤ s.length && s.length ≤ 64 && isKebab s)) &&
    reqField d "version" (strSuch isSemver) &&
    reqField d "purpose" (strSuch (fun s => 10 ≤ s.length && s.length ≤ 1024)) &&
    reqField d "owner" (strSuch (fun s => 1 ≤ s.length)) &&
    optField d "category" (strSuch (memStr
      ["documentation", "analysis", "generation", "transformation",
       "validation", "orchestration", "other"])) &&
    optField d "complexity" (strSuch (memStr ["low", "standard", "advanced"])) &&
    optField d "tools_required" (isListOf isStrV) &&
    optField d "personas" (isListOf isStrV) &&
    optField d "license" isStrV &&
    optField d "compatibility" (strSuch (fun s => s.length ≤ 500)) &&
    optField d "allowed_tools" (isListOf isStrV) &&
    optField d "metadata" isDictV
  | _ => false

/-- `InputDomain` acceptance, with its `validate_domain_fields` after-check
(Python truthiness: `None` and the empty list both fail `not self.values`). -/
def domainOK : PyVal → Bool
  | PyVal.vDict d =>
    keysSubset d ["type", "values", "min", "max", "patterns"] &&
    reqField d "type" (strSuch (memStr ["enum", "range", "pattern_set", "boolean", "any"])) &&
    optField d "values" (fun v => match v with | PyVal.vList _ => true | _ => false) &&
    optField d "min" (fun v => match v with | PyVal.vInt _ => true | _ => false) &&
    optField d "max" (fun v => match v with | PyVal.vInt _ => true | _ => false) &&
    optField d "patterns" (isListOf isStrV) &&
    (match lookupKey d "type".data with
     | some (PyVal.vStr t) =>
       (if t = "enum".data then
          match lookupKey d "values".data with
          | some (PyVal.vList (_ :: _)) => true
          | _ => false
        else true) &&
       (if t = "range".data then
          (match lookupKey d "min".data with
           | some (PyVal.vInt _) => true
           | _ => false) &&
          (match lookupKey d "max".data with
           | some (PyVal.vInt _) => true
           | _ => false)
        else true) &&
       (if t = "pattern_set".data then
          match lookupKey d "patterns".data with
          | some (PyVal.vList (_ :: _)) => true
          | _ => false
        else true)
     | _ => false)
  | _ => false

/-- `InputSpec` acceptance. -/
def inputOK : PyVal → Bool
  | PyVal.vDict d =>
    keysSubset d ["name", "type", "required", "constraints", "domain",
                  "description", "tags"] &&
    reqField d "name" (strSuch isSnake) &&
    reqField d "type" (strSuch (memStr ["string", "number", "boolean", "object", "array"])) &&
    reqField d "required" (fun v => match v with | PyVal.vBool _ => true | _ => false) &&
    optField d "constraints" (isListOf (fun v => isStrV v || isDictV v)) &&
    optField d "domain" domainOK &&
    optField d "description" isStrV &&
    optField d "tags" (isListOf isStrV)
  | _ => false

/-- `DecisionRule` acceptance. -/
def ruleOK : PyVal → Bool
  | PyVal.vDict d =>
    keysSubset d ["id", "priority", "is_default", "when", "then"] &&
    optField d "id" (strSuch isSnake) &&
    (match lookupKey d "priority".data with
     | none => true
     | some (PyVal.vInt n) => 0 ≤ n
     | some _ => false) &&
    (match lookupKey d "is_default".data with
     | none => true
     | some (PyVal.vBool _) => true
     | some _ => false) &&
    reqField d "when" (fun v => match v with
      | PyVal.vStr _ => true
      | PyVal.vBool _ => true
      | PyVal.vDict _ => true
      | _ => false) &&
    reqField d "then" isDictV
  | _ => false

/-- `ExecutionStep` acceptance. -/
def stepOK : PyVal → Bool
  | PyVal.vDict d =>
    keysSubset d ["id", "action", "output", "based_on", "condition"] &&
    reqField d "id" (strSuch isSnake) &&
    reqField d "action" (strSuch (fun s => 1 ≤ s.length)) &&
    optField d "output" isStrV &&
    optField d "based_on" (isListOf isStrV) &&
    optField d "condition" isStrV
  | _ => false

/-- `OutputContract` acceptance (`populate_by_name`: key `schema` — the
alias, preferred — or `schema_`). -/
def contractOK : PyVal → Bool
  | PyVal.vDict d =>
    keysSubset d ["format", "schema", "schema_"] &&
    reqField d "format" (strSuch (memStr ["json", "text", "markdown", "yaml", "binary"])) &&
    (match lookupKey d "schema".data with
     | some v => isDictV v
     | none =>
       match lookupKey d "schema_".data with
       | some v => isDictV v
       | none => false)
  | _ => false

/-- `FailureMode` acceptance. -/
def failureOK : PyVal → Bool
  | PyVal.vDict d =>
    keysSubset d ["code", "retryable", "description", "recovery_hint"] &&
    reqField d "code" (strSuch isUpperSnake) &&
    reqField d "retryable" (fun v => match v with | PyVal.vBool _ => true | _ => false) &&
    optField d "description" isStrV &&
    optField d "recovery_hint" isStrV
  | _ => false

/-- `EdgeCase` acceptance (`input_example` is `Optional[Any]`: unchecked). -/
def edgeOK : PyVal → Bool
  | PyVal.vDict d =>
    keysSubset d ["case", "expected", "input_example", "covers_rule", "covers_failure"] &&
    reqField d "case" (strSuch (fun s => 1 ≤ s.length)) &&
    reqField d "expected" isDictV &&
    optField d "covers_rule" isStrV &&
    optField d "covers_failure" isStrV
  | _ => false

/-- `Triggers` acceptance. -/
def triggersOK : PyVal → Bool
  | PyVal.vDict d =>
    keysSubset d ["use_when", "do_not_use_when"] &&
    optField d "use_when" (isListOf isStrV) &&
    optField d "do_not_use_when" (isListOf isStrV)
  | _ => false

/-- `Boundaries` acceptance. -/
def boundariesOK : PyVal → Bool
  | PyVal.vDict d =>
    keysSubset d ["will", "will_not"] &&
    optField d "will" (isListOf isStrV) &&
    optField d "will_not" (isListOf isStrV)
  | _ => false

/-- `BehavioralPhase` acceptance. -/
def phaseOK : PyVal → Bool
  | PyVal.vDict d =>
    keysSubset d ["phase", "description", "key_actions"] &&
    reqField d "phase" isStrV &&
    reqField d "description" isStrV &&
    optField d "key_actions" (isListOf isStrV)
  | _ => false

/-- `Mistake` acceptance. -/
def mistakeOK : PyVal → Bool
  | PyVal.vDict d =>
    keysSubset d ["pattern", "why_bad", "correct"] &&
    reqField d "pattern" isStrV &&
    reqField d "why_bad" isStrV &&
    reqField d "correct" isStrV
  | _ => false

/-- `Rationalization` acceptance. -/
def rationalizationOK : PyVal → Bool
  | PyVal.vDict d =>
    keysSubset d ["excuse", "reality"] &&
    reqField d "excuse" isStrV &&
    reqField d "reality" isStrV
  | _ => false

/-- `AntiPatterns` acceptance. -/
def antiPatternsOK : PyVal → Bool
  | PyVal.vDict d =>
    keysSubset d ["mistakes", "rationalizations", "red_flags"] &&
    optField d "mistakes" (isListOf mistakeOK) &&
    optField d "rationalizations" (isListOf rationalizationOK) &&
    optField d "red_flags" (isListOf isStrV)
  | _ => false

/-- `SkillReference` acceptance (no `Config`, so pydantic's default
`extra = "ignore"` applies: unknown keys are allowed). -/
def skillRefOK : PyVal → Bool
  | PyVal.vDict d =>
    reqField d "skill" isStrV &&
    reqField d "reason" isStrV
  | _ => false

/-- `Scenario` acceptance (default `extra = "ignore"`). -/
def scenarioOK : PyVal → Bool
  | PyVal.vDict d =>
    reqField d "name" isStrV &&
    optField d "trigger" isStrV &&
    reqField d "description" isStrV
  | _ => false

/-- `ContextInfo` acceptance. -/
def contextOK : PyVal → Bool
  | PyVal.vDict d =>
    keysSubset d ["works_with", "prerequisites", "scenarios"] &&
    optField d "works_with" (isListOf skillRefOK) &&
    optField d "prerequisites" (isListOf isStrV) &&
    optField d "scenarios" (isListOf scenarioOK)
  | _ => false

/-- `Example` acceptance (`input` and `output` are required `Any` fields:
the keys must be present, the values are unchecked). -/
def exampleOK : PyVal → Bool
  | PyVal.vDict d =>
    keysSubset d ["name", "scenario", "trigger", "input", "output", "explanation"] &&
    reqField d "name" isStrV &&
    optField d "scenario" isStrV &&
    optField d "trigger" isStrV &&
    hasKey d "input".data &&
    hasKey d "output".data &&
    optField d "explanation" isStrV
  | _ => false

/-- The `decision_rules` field: `Union[Dict[str, Any], List[DecisionRule]]` —
any dict is accepted unvalidated; a list must be a list of valid rules. -/
def decisionRulesOK : PyVal → Bool
  | PyVal.vDict _ => true
  | PyVal.vList xs => xs.all ruleOK
  | _ => false

/-! ### models.py: SkillSpec.validate_cross_references -/

/-- `ExecutionStep`, as the typed model after validation (`action` and
`condition` play no role in cross-reference checking). -/
structure ExecutionStep where
  id : Str
  output : Option Str := none
  based_on : Option (List Str) := none
deriving DecidableEq, Repr

/-- The step-dependency loop of `validate_cross_references`: walk the steps
in declaration order, carrying the set of outputs already produced; report
the first `based_on` entry that is not yet available, as the pair
`(step id, missing dependency)` named by the raised `ValueError`.  A step's
own `output` is added only after its `based_on` entries are checked, and
only when it is a non-empty string (Python truthiness of `step.output`). -/
def checkStepDepsFrom : List ExecutionStep → List Str → Option (Str × Str)
  | [], _ => none
  | s :: rest, avail =>
    match (s.based_on.getD []).find? (fun dep => !avail.any (fun a => a = dep)) with
    | some dep => some (s.id, dep)
    | none =>
      let avail' :=
        match s.output with
        | some o => if o ≠ [] then avail ++ [o] else avail
        | none => avail
      checkStepDepsFrom rest avail'

/-- The step-dependency check started with no available outputs. -/
def checkStepDeps (steps : List ExecutionStep) : Option (Str × Str) :=
  checkStepDepsFrom steps []

/-- Read a validated step dict back as a typed `ExecutionStep`. -/
def stepOfPy : PyVal → ExecutionStep
  | PyVal.vDict d =>
    { id := ((lookupKey d "id".data).bind asStr?).getD []
      output := (lookupKey d "output".data).bind asStr?
      based_on :=
        match lookupKey d "based_on".data with
        | some (PyVal.vList xs) => some (xs.filterMap asStr?)
        | _ => none }
  | _ => { id := [] }

/-- The rule identifiers `validate_cross_references` collects from the raw
`decision_rules` value, restricted to its string members (`None` or
non-string members of the Python set can never equal a string
`covers_rule`). -/
def ruleIdStrs : PyVal → List Str
  | PyVal.vList rules =>
    rules.filterMap (fun r =>
      match r with
      | PyVal.vDict d => (lookupKey d "id".data).bind asStr?
      | _ => none)
  | PyVal.vDict d =>
    (match lookupKey d "rules".data with
     | some (PyVal.vList rl) =>
       rl.filterMap (fun r =>
         match r with
         | PyVal.vDict rd =>
           match lookupKey rd "id".data with
           | some (PyVal.vStr s) => if s ≠ [] then some s else none
           | _ => none
         | _ => none)
     | _ =>
       d.filterMap (fun e =>
         if e.1 = "_config".data then none
         else
           match e.2 with
           | PyVal.vDict rd =>
             match lookupKey rd "id".data with
             | some (PyVal.vStr s) => some s
             | some _ => none
             | none => some e.1
           | _ => none))
  | _ => []

/-- The `covers_rule` / `covers_failure` back-reference checks of
`validate_cross_references` (Python truthiness: an empty `covers_rule`
string skips the check). -/
def edgeCasesOK (edge_cases : List PyVal) (rule_ids failure_codes : List Str) : Bool :=
  edge_cases.all (fun ec =>
    match ec with
    | PyVal.vDict d =>
      (match lookupKey d "covers_rule".data with
       | some (PyVal.vStr s) => s.isEmpty || rule_ids.any (fun r => r = s)
       | _ => true) &&
      (match lookupKey d "covers_failure".data with
       | some (PyVal.vStr s) => s.isEmpty || failure_codes.any (fun r => r = s)
       | _ => true)
    | _ => true)

/-- `SkillSpec.validate_cross_references` as a boolean acceptance check over
the validated spec dict. -/
def crossRefsOK (d : List (Str × PyVal)) : Bool :=
  let rule_ids := ruleIdStrs ((lookupKey d "decision_rules".data).getD PyVal.vNone)
  let failure_codes :=
    match lookupKey d "failure_modes".data with
    | some (PyVal.vList fs) =>
      fs.filterMap (fun f =>
        match f with
        | PyVal.vDict fd => (lookupKey fd "code".data).bind asStr?
        | _ => none)
    | _ => []
  let steps :=
    match lookupKey d "steps".data with
    | some (PyVal.vList xs) => xs.map stepOfPy
    | _ => []
  let edge_cases :=
    match lookupKey d "edge_cases".data with
    | some (PyVal.vList xs) => xs
    | _ => []
  edgeCasesOK edge_cases rule_ids failure_codes && (checkStepDeps steps).isNone

/-- A required list field with `min_length = 1` whose items satisfy `p`. -/
def listField1 (d : List (Str × PyVal)) (k : String) (p : PyVal → Bool) : Bool :=
  match lookupKey d k.data with
  | some (PyVal.vList xs) => !xs.isEmpty && xs.all p
  | _ => false

/-- `SkillSpec.model_validate` acceptance: root shape (with
`populate_by_name`, so `_meta` may also be given as `meta`), every section's
typed validation, and the cross-reference after-validator. -/
def modelAccepts : PyVal → Bool
  | PyVal.vDict d =>
    keysSubset d ["spec_version", "_meta", "meta", "skill", "inputs",
                  "preconditions", "non_goals", "decision_rules", "steps",
                  "output_contract", "failure_modes", "edge_cases", "triggers",
                  "boundaries", "behavioral_flow", "anti_patterns", "context",
                  "examples"] &&
    (match lookupKey d "spec_version".data with
     | none => true
     | some v => strSuch (memStr ["skill-spec/1.0", "skill-spec/1.1", "skill-spec/1.2"]) v) &&
    (match lookupKey d "_meta".data with
     | some v => (match v with | PyVal.vNone => true | _ => metaOK v)
     | none => optField d "meta" metaOK) &&
    reqField d "skill" skillOK &&
    listField1 d "inputs" inputOK &&
    listField1 d "preconditions" isStrV &&
    listField1 d "non_goals" isStrV &&
    reqField d "decision_rules" decisionRulesOK &&
    listField1 d "steps" stepOK &&
    reqField d "output_contract" contractOK &&
    listField1 d "failure_modes" failureOK &&
    listField1 d "edge_cases" edgeOK &&
    optField d "triggers" triggersOK &&
    optField d "boundaries" boundariesOK &&
    optField d "behavioral_flow" (isListOf phaseOK) &&
    optField d "anti_patterns" antiPatternsOK &&
    optField d "context" contextOK &&
    optField d "examples" (isListOf exampleOK) &&
    crossRefsOK d
  | _ => false

/-! ### validator/schema.py: SchemaValidator

Embedded for the default construction `SchemaValidator()` (`schema_path` is
`None`), under which the optional jsonschema branch of `validate` is dead
code. -/

/-- `SchemaError` from schema.py. -/
structure SchemaError where
  path : Str
  message : Str
  suggestion : Option Str := none
deriving DecidableEq, Repr

/-- `SchemaValidationResult` from schema.py. -/
structure SchemaValidationResult where
  valid : Bool
  errors : List SchemaError := []
  warnings : List SchemaError := []
deriving DecidableEq, Repr

/-- `REQUIRED_SECTIONS` (= `CORE_SECTIONS ++ COVERAGE_SECTIONS`). -/
def REQUIRED_SECTIONS : List String :=
  ["skill", "inputs", "preconditions", "non_goals", "decision_rules",
   "steps", "output_contract", "failure_modes", "edge_cases"]

/-- `ERROR_SUGGESTIONS` from schema.py. -/
def ERROR_SUGGESTIONS : List (String × String) :=
  [("skill", "Add a 'skill' section with name, version, purpose, and owner"),
   ("inputs", "Add an 'inputs' section with at least one input definition"),
   ("preconditions", "Add a 'preconditions' section listing prerequisites"),
   ("non_goals", "Add a 'non_goals' section stating what the skill does NOT do"),
   ("decision_rules", "Add 'decision_rules' section with explicit conditions"),
   ("steps", "Add a 'steps' section with execution flow"),
   ("output_contract", "Add 'output_contract' with format and schema"),
   ("failure_modes", "Add 'failure_modes' section with error definitions"),
   ("edge_cases", "Add 'edge_cases' section covering boundary conditions")]

/-- `ERROR_SUGGESTIONS.get(section)`. -/
def errorSuggestion (k : String) : Option Str :=
  (ERROR_SUGGESTIONS.find? (fun e => e.1 = k)).map (fun e => e.2.data)

/-- Python `str(value)` for the embedded values, as interpolated into
messages.  Only the string case is ever exercised by the claims; containers
are rendered with a placeholder tag rather than Python's element-wise
`repr`. -/
def pyStrOf : PyVal → Str
  | PyVal.vStr s => s
  | PyVal.vNone => "None".data
  | PyVal.vBool true => "True".data
  | PyVal.vBool false => "False".data
  | PyVal.vInt n => (toString n).data
  | PyVal.vList _ => "<list>".data
  | PyVal.vDict _ => "<dict>".data

/-- One section of `SchemaValidator._check_required_sections`: the error it
appends for `sec`, if any. -/
def sectionErrorFor (spec : List (Str × PyVal)) (sec : String) : Option SchemaError :=
  match lookupKey spec sec.data with
  | none =>
    some ⟨sec.data, ("Missing required section: " ++ sec).data,
          errorSuggestion sec⟩
  | some PyVal.vNone =>
    some ⟨sec.data, ("Section '" ++ sec ++ "' is null").data,
          some ("Provide valid content for '" ++ sec ++ "'").data⟩
  | some (PyVal.vList xs) =>
    if xs.isEmpty then
      some ⟨sec.data, ("Section '" ++ sec ++ "' is empty").data,
            some ("Add at least one item to '" ++ sec ++ "'").data⟩
    else none
  | some _ => none

/-- `SchemaValidator._check_required_sections`: the errors it appends, in
section order. -/
def requiredSectionErrors (spec : List (Str × PyVal)) : List SchemaError :=
  REQUIRED_SECTIONS.filterMap (sectionErrorFor spec)

/-- `SchemaValidator._check_spec_version`: the (errors, warnings) it
appends. -/
def specVersionFindings (spec : List (Str × PyVal)) :
    List SchemaError × List SchemaError :=
  match lookupKey spec "spec_version".data with
  | none =>
    ([⟨"spec_version".data, "Missing required field: spec_version".data,
       some "Add 'spec_version: \"skill-spec/1.1\"'".data⟩], [])
  | some v =>
    let known :=
      match v with
      | PyVal.vStr s => memStr ["skill-spec/1.0", "skill-spec/1.1"] s
      | _ => false
    if known then ([], [])
    else
      ([], [⟨"spec_version".data, "Unknown spec version: ".data ++ pyStrOf v,
             some "Use 'skill-spec/1.0' or 'skill-spec/1.1'".data⟩])

/-- The error list `SchemaValidator._validate_with_pydantic` appends when the
typed model rejects the spec.  Pydantic produces one entry per failing field
with library-formatted locations and messages; that detail is external
library behaviour and is abstracted as a single entry — no claim depends on
the reject-branch error contents, only on the list being non-empty. -/
def pydanticFailure : SchemaError :=
  ⟨"model".data, "pydantic validation failed".data, none⟩

/-- `SchemaValidator.validate` for the default validator (`schema_path =
None`): required-section check, version check, then — only if still valid —
the typed-model validation. -/
def schemaValidate (spec : List (Str × PyVal)) : SchemaValidationResult :=
  let e1 := requiredSectionErrors spec
  let vw := specVersionFindings spec
  let eMain := e1 ++ vw.1
  let e3 :=
    if eMain.isEmpty then
      (if modelAccepts (PyVal.vDict spec) then [] else [pydanticFailure])
    else []
  let errors := eMain ++ e3
  ⟨errors.isEmpty, errors, vw.2⟩

/-! ### validator/quality.py: QualityValidator

Embedded for the default construction (`patterns_dir = None`,
`languages = ["en"]`): the default forbidden patterns and the default scan
scope apply. -/

/-- The backtick character. -/
def btChar : Char := Char.ofNat 96

/-- Three backticks (a fenced-code delimiter). -/
def tripleBt : Str := [btChar, btChar, btChar]

/-- Python `lower_text.find(lower_pattern)`: index of the first occurrence
of `needle` in `hay` (`none` for Python's `-1`). -/
def findSubIdx (hay needle : Str) : Option Nat :=
  if needle.isPrefixOf hay then some 0
  else
    match hay with
    | [] => none
    | _ :: t => (findSubIdx t needle).map (· + 1)

/-- The scan of `re.sub` for the fenced-code ignore pattern, with explicit
fuel (every recursive call consumes at least one character, so fuel equal to
the string length never runs out). -/
def stripFencedAux : Nat → Str → Str
  | 0, s => s
  | _ + 1, [] => []
  | fuel + 1, c :: rest =>
    if startsWith (c :: rest) tripleBt then
      match findSubIdx ((c :: rest).drop 3) tripleBt with
      | some i => stripFencedAux fuel (rest.drop (i + 5))
      | none => c :: stripFencedAux fuel rest
    else c :: stripFencedAux fuel rest

/-- `re.sub` of the ignore pattern <triple backtick>`[\s\S]*?`<triple
backtick>: delete every fenced code block (leftmost match, shortest
body). -/
def stripFenced (s : Str) : Str := stripFencedAux s.length s

/-- The scan of `re.sub` for the inline-code ignore pattern, with explicit
fuel. -/
def stripInlineAux : Nat → Str → Str
  | 0, s => s
  | _ + 1, [] => []
  | fuel + 1, c :: rest =>
    if c = btChar then
      let run := rest.takeWhile (fun d => d ≠ btChar)
      if !run.isEmpty && startsWith (rest.drop run.length) [btChar] then
        stripInlineAux fuel (rest.drop (run.length + 1))
      else c :: stripInlineAux fuel rest
    else c :: stripInlineAux fuel rest

/-- `re.sub` of the ignore pattern `` `[^`]+` ``: delete every inline code
span (a backtick, a maximal non-empty run of non-backticks, a backtick). -/
def stripInline (s : Str) : Str := stripInlineAux s.length s

/-- `QualityValidator._preprocess_text`: apply the default ignore patterns in
order (fenced code blocks, then inline code). -/
def preprocessText (s : Str) : Str := stripInline (stripFenced s)

/-! #### The scan-scope path language

`_get_scannable_fields` translates a scanned-field path such as
`steps[*].action` into the regex `^steps\[\d+\].action$` (only `[*]` is
replaced; the `.` separators stay as the regex any-character).  The
embedding compiles such a path into tokens and matches deterministically —
the only regex constructs arising from the default scan scope. -/

/-- A token of a translated scanned-field path. -/
inductive PathTok where
  | lit (c : Char)
  | anyChar
  | numIdx
deriving DecidableEq, Repr

/-- Compile a scanned-field path: `[*]` becomes the `\[\d+\]` token, `.`
becomes the regex any-character, everything else is literal. -/
def compileScanPattern : Str → List PathTok
  | [] => []
  | '[' :: '*' :: ']' :: rest => PathTok.numIdx :: compileScanPattern rest
  | '.' :: rest => PathTok.anyChar :: compileScanPattern rest
  | c :: rest => PathTok.lit c :: compileScanPattern rest

/-- Match a compiled scanned-field pattern against a whole path
(`re.match(f"^{pattern}$", path)`). -/
def patToksMatch : List PathTok → Str → Bool
  | [], [] => true
  | [], _ :: _ => false
  | PathTok.lit c :: ts, d :: ds => c = d && patToksMatch ts ds
  | PathTok.anyChar :: ts, _ :: ds => patToksMatch ts ds
  | PathTok.numIdx :: ts, '[' :: ds =>
    let digs := ds.takeWhile isDigitC
    !digs.isEmpty && startsWith (ds.drop digs.length) [']'] &&
      patToksMatch ts ((ds.drop digs.length).drop 1)
  | _, _ => false

/-- The `scanned_fields` paths of the default scan scope. -/
def defaultScannedPaths : List Str :=
  ["steps[*].action".data, "skill.purpose".data, "inputs[*].description".data]

/-- The `ignored_fields` paths of the default scan scope. -/
def defaultIgnoredPaths : List Str :=
  ["spec_version".data, "skill.name".data, "skill.version".data]

mutual

/-- `_get_scannable_fields`, inner `extract`: walk the spec value depth-first
in insertion order, collecting the string leaves whose dotted/bracketed path
matches a scanned-field pattern (ignored paths are pruned at entry; were the
scanned-field list empty, every string leaf would be collected). -/
def extractFields (data : PyVal) (path : Str) : List (Str × Str) :=
  if defaultIgnoredPaths.any (fun p => p = path) then []
  else
    match data with
    | PyVal.vStr s =>
      if defaultScannedPaths.isEmpty then [(path, s)]
      else if defaultScannedPaths.any (fun sp => patToksMatch (compileScanPattern sp) path) then
        [(path, s)]
      else []
    | PyVal.vDict entries => extractFromEntries entries path
    | PyVal.vList xs => extractFromList xs path 0
    | _ => []

/-- Walk the entries of a dict (`new_path = f"{path}.{key}" if path else key`). -/
def extractFromEntries (entries : List (Str × PyVal)) (path : Str) : List (Str × Str) :=
  match entries with
  | [] => []
  | (k, v) :: rest =>
    extractFields v (if path.isEmpty then k else path ++ '.' :: k) ++
      extractFromEntries rest path

/-- Walk the items of a list (`new_path = f"{path}[{i}]"`). -/
def extractFromList (xs : List PyVal) (path : Str) (i : Nat) : List (Str × Str) :=
  match xs with
  | [] => []
  | x :: rest =>
    extractFields x (path ++ '[' :: (natToStr i ++ [']'])) ++
      extractFromList rest path (i + 1)

end

/-! #### Forbidden patterns -/

/-- `ForbiddenPattern` from quality.py. -/
structure ForbiddenPattern where
  pattern : Str
  category : Str
  severity : Str
  context : Str
  fix : Str
  is_regex : Bool := false
deriving DecidableEq, Repr

/-- ASCII lowercasing (Python `str.lower` restricted to ASCII). -/
def toLowerStr (s : Str) : Str := s.map Char.toLower

/-- A `\w` word character (ASCII model of `re`'s word class). -/
def isWordChar (c : Char) : Bool :=
  isLowerC c || isUpperC c || isDigitC c || c = '_'

/-- `re.search` of `\b<word>\b` with `re.IGNORECASE`: the leftmost
case-insensitive occurrence of `word` delimited by word boundaries, returned
in its original casing (`match.group(0)`).  `prev` is the character before
the current position. -/
def wordBoundarySearch (word : Str) : Str → Option Char → Option Str
  | [], _ => none
  | u@(c :: rest), prev =>
    if toLowerStr (u.take word.length) = toLowerStr word &&
        word.length ≤ u.length &&
        (match prev with | none => true | some p => !isWordChar p) &&
        (match u.drop word.length with | [] => true | d :: _ => !isWordChar d) then
      some (u.take word.length)
    else wordBoundarySearch word rest (some c)

/-- `re.search(pattern, text, re.IGNORECASE)` for the regex shapes that the
default pattern tables use: `\b<word>\b` with a word-character body.  Other
regex shapes do not occur among the default spec patterns and yield no
match. -/
def regexSearch (pat text : Str) : Option Str :=
  let mid := (pat.drop 2).take (pat.length - 4)
  if 4 ≤ pat.length && pat.take 2 = ['\\', 'b'] &&
      pat.drop (pat.length - 2) = ['\\', 'b'] &&
      !mid.isEmpty && mid.all isWordChar then
    wordBoundarySearch mid text none
  else none

/-- `ForbiddenPattern.match`: regex search for regex patterns; otherwise
case-insensitive literal containment with the original-casing slice
extracted for reporting. -/
def ForbiddenPattern.matchText (p : ForbiddenPattern) (text : Str) : Option Str :=
  if p.is_regex then regexSearch p.pattern text
  else
    match findSubIdx (toLowerStr text) (toLowerStr p.pattern) with
    | some idx => some ((text.drop idx).take p.pattern.length)
    | none => none

/-- `QualityValidator._get_default_patterns`. -/
def defaultPatterns : List ForbiddenPattern :=
  [⟨"as needed".data, "VAGUE_CONDITION".data, "error".data, "instruction".data,
    "Replace with explicit condition".data, false⟩,
   ⟨"if appropriate".data, "VAGUE_CONDITION".data, "error".data, "instruction".data,
    "Define what 'appropriate' means".data, false⟩,
   ⟨"try to".data, "VAGUE_ACTION".data, "error".data, "action".data,
    "Remove 'try to' and state definite action".data, false⟩,
   ⟨"\\bhelp\\b".data, "VAGUE_ACTION".data, "error".data, "action".data,
    "Replace with specific action".data, true⟩,
   ⟨"\\bgenerally\\b".data, "VAGUE_DEGREE".data, "error".data, "any".data,
    "Remove or specify exact cases".data, true⟩,
   ⟨"\\btypically\\b".data, "VAGUE_DEGREE".data, "error".data, "any".data,
    "Remove or specify exact cases".data, true⟩,
   ⟨"\\bmight\\b".data, "HEDGE_WORDS".data, "warning".data, "any".data,
    "State definite outcome".data, true⟩,
   ⟨"\\bcould\\b".data, "HEDGE_WORDS".data, "warning".data, "any".data,
    "State definite outcome".data, true⟩]

/-! #### Quality results -/

/-- `PatternViolation` from quality.py. -/
structure PatternViolation where
  path : Str
  pattern : Str
  matched_text : Str
  category : Str
  severity : Str
  fix_suggestion : Str
  line_number : Option Nat := none
deriving DecidableEq, Repr

/-- `QualityValidationResult` from quality.py (`category_counts` is an
insertion-ordered dict). -/
structure QualityValidationResult where
  valid : Bool
  violations : List PatternViolation := []
  category_counts : List (Str × Nat) := []
  total_errors : Nat := 0
  total_warnings : Nat := 0
  total_info : Nat := 0
deriving DecidableEq, Repr

/-- `self.category_counts[cat] = self.category_counts.get(cat, 0) + 1`. -/
def bumpCount : List (Str × Nat) → Str → List (Str × Nat)
  | [], k => [(k, 1)]
  | (k', n) :: rest, k =>
    if k' = k then (k', n + 1) :: rest else (k', n) :: bumpCount rest k

/-- `QualityValidationResult.add_violation`. -/
def addViolation (r : QualityValidationResult) (v : PatternViolation) :
    QualityValidationResult :=
  { valid := if v.severity = "error".data then false else r.valid
    violations := r.violations ++ [v]
    category_counts := bumpCount r.category_counts v.category
    total_errors := r.total_errors + (if v.severity = "error".data then 1 else 0)
    total_warnings := r.total_warnings + (if v.severity = "warning".data then 1 else 0)
    total_info := r.total_info + (if v.severity = "info".data then 1 else 0) }

/-- `typ(value).__name__` for the embedded values. -/
def typeName : PyVal → Str
  | PyVal.vNone => "NoneType".data
  | PyVal.vBool _ => "bool".data
  | PyVal.vInt _ => "int".data
  | PyVal.vStr _ => "str".data
  | PyVal.vList _ => "list".data
  | PyVal.vDict _ => "dict".data

/-- `QualityValidator._validate_decision_rules`: the violations it appends,
in order.  (A non-dict entry of a list-form `decision_rules` would raise
`AttributeError` in Python; it does not occur in the claims and contributes
nothing here.) -/
def ruleSemanticViolations (spec : List (Str × PyVal)) : List PatternViolation :=
  let dr := (lookupKey spec "decision_rules".data).getD (PyVal.vDict [])
  let rules : List PyVal :=
    match dr with
    | PyVal.vList xs => xs
    | PyVal.vDict d =>
      d.filterMap (fun e =>
        if e.1 = "_config".data then none
        else match e.2 with
          | PyVal.vDict _ => some e.2
          | _ => none)
    | _ => []
  rules.enum.flatMap (fun p =>
    let rd := match p.2 with | PyVal.vDict d => d | _ => []
    let rule_id :=
      match lookupKey rd "id".data with
      | some v => pyStrOf v
      | none => "rule_".data ++ natToStr p.1
    (match lookupKey rd "when".data with
     | none =>
       [⟨"decision_rules.".data ++ rule_id ++ ".when".data, "missing".data,
         "<missing>".data, "MISSING_CONDITION".data, "error".data,
         "Add 'when' condition to decision rule".data, none⟩]
     | some PyVal.vNone =>
       [⟨"decision_rules.".data ++ rule_id ++ ".when".data, "missing".data,
         "<missing>".data, "MISSING_CONDITION".data, "error".data,
         "Add 'when' condition to decision rule".data, none⟩]
     | some (PyVal.vStr s) =>
       if (strip s).isEmpty then
         [⟨"decision_rules.".data ++ rule_id ++ ".when".data, "empty".data,
           "<empty>".data, "EMPTY_CONDITION".data, "error".data,
           "Provide non-empty 'when' condition".data, none⟩]
       else []
     | some _ => []) ++
    (match lookupKey rd "then".data with
     | none =>
       [⟨"decision_rules.".data ++ rule_id ++ ".then".data, "missing".data,
         "<missing>".data, "MISSING_ACTION".data, "error".data,
         "Add 'then' action to decision rule".data, none⟩]
     | some PyVal.vNone =>
       [⟨"decision_rules.".data ++ rule_id ++ ".then".data, "missing".data,
         "<missing>".data, "MISSING_ACTION".data, "error".data,
         "Add 'then' action to decision rule".data, none⟩]
     | some _ => []))

/-- `QualityValidator._validate_output_contract`: the violations it appends.
(A non-dict `output_contract` would raise in Python; outside the claims.) -/
def contractViolations (spec : List (Str × PyVal)) : List PatternViolation :=
  let oc := (lookupKey spec "output_contract".data).getD (PyVal.vDict [])
  let od := match oc with | PyVal.vDict d => d | _ => []
  match lookupKey od "schema".data with
  | none =>
    [⟨"output_contract.schema".data, "missing".data, "<missing>".data,
      "MISSING_SCHEMA".data, "error".data,
      "Add JSON Schema for output validation".data, none⟩]
  | some PyVal.vNone =>
    [⟨"output_contract.schema".data, "missing".data, "<missing>".data,
      "MISSING_SCHEMA".data, "error".data,
      "Add JSON Schema for output validation".data, none⟩]
  | some (PyVal.vDict sd) =>
    if hasKey sd "type".data || hasKey sd "$ref".data then []
    else
      [⟨"output_contract.schema".data, "missing_type".data, "<no type>".data,
        "INCOMPLETE_SCHEMA".data, "warning".data,
        "Add 'type' field to schema".data, none⟩]
  | some v =>
    [⟨"output_contract.schema".data, "invalid_type".data, typeName v,
      "INVALID_SCHEMA".data, "error".data,
      "Schema must be a JSON Schema object".data, none⟩]

/-- `QualityValidator.validate` with the default patterns and scan scope:
scan the selected fields for forbidden patterns, then the decision-rule and
output-contract semantic checks, accumulating via `add_violation`. -/
def qualityValidate (spec : List (Str × PyVal)) : QualityValidationResult :=
  let fields := extractFields (PyVal.vDict spec) []
  let scanViols := fields.flatMap (fun f =>
    let pre := preprocessText f.2
    defaultPatterns.filterMap (fun p =>
      (p.matchText pre).map (fun m =>
        ⟨f.1, p.pattern, m, p.category, p.severity, p.fix, none⟩)))
  (scanViols ++ ruleSemanticViolations spec ++ contractViolations spec).foldl
    addViolation ⟨true, [], [], 0, 0, 0⟩

/-! ### Spec-side auxiliary definitions (used in theorem statements) -/

/-- A required section passes `_check_required_sections`: present, not
`None`, and non-empty when a list. -/
def sectionOK (spec : List (Str × PyVal)) (sec : String) : Bool :=
  match lookupKey spec sec.data with
  | none => false
  | some PyVal.vNone => false
  | some (PyVal.vList xs) => !xs.isEmpty
  | some _ => true

/-- The outputs produced by the first `i` steps in declaration order
(only non-empty `output` strings count, per Python truthiness). -/
def producedBefore (steps : List ExecutionStep) (i : Nat) : List Str :=
  ((steps.take i).filterMap (fun s => s.output)).filter (fun o => !o.isEmpty)

/-- Every `based_on` entry of every step names an output produced by a
strictly earlier step. -/
def DepsOrdered (steps : List ExecutionStep) : Prop :=
  ∀ i (h : i < steps.length), ∀ dep ∈ ((steps.get ⟨i, h⟩).based_on.getD []),
    dep ∈ producedBefore steps i

/-- The outputs a single step contributes to the available set (a non-empty
`output` string, per Python truthiness). -/
def outContrib (s : ExecutionStep) : List Str :=
  match s.output with
  | some o => if o ≠ [] then [o] else []
  | none => []

/-- A well-ordered two-step sequence: the producer of `parsed` precedes its
consumer. -/
def c5GoodSteps : List ExecutionStep :=
  [⟨"s_one".data, some "parsed".data, none⟩,
   ⟨"s_two".data, none, some ["parsed".data]⟩]

/-- The same two steps in the offending order: the consumer of `parsed`
comes first. -/
def c5BadSteps : List ExecutionStep :=
  [⟨"s_two".data, none, some ["parsed".data]⟩,
   ⟨"s_one".data, some "parsed".data, none⟩]

/-- A string contains none of the four block markers. -/
def MarkerFree (s : Str) : Prop := ∀ m ∈ allMarkers, ¬ m <:+: s

/-- The contents of the MANUAL blocks of a block list, in order. -/
def manualContents (bs : List ContentBlock) : List Str :=
  (bs.filter (fun b => b.block_type = BlockType.MANUAL)).map (fun b => b.content)

/-- Invariant of the `parse_skill_md` line loop: every accumulated line is
newline-free and marker-free, and every flushed block's content is
marker-free. -/
def CleanState (st : ParseState) : Prop :=
  (∀ l ∈ st.cur, nlChar ∉ l ∧ MarkerFree l) ∧ ∀ b ∈ st.blocks, MarkerFree b.content

/-- Rewrap a source rule value with the key-derived id, as the legacy keyed
encoding assigns it (spec-side formulation for the id-generation claim). -/
def keyedWithId (k : Str) (v : PyVal) : PyVal :=
  match v with
  | PyVal.vDict d =>
    if hasKey d "id".data then PyVal.vDict d
    else PyVal.vDict (d ++ [("id".data, PyVal.vStr k)])
  | r => r

/-! ### Concrete instances for counterexamples and witnesses -/

/-- A previous document whose only marker structure is a dangling end marker
(an end marker with no matching start). -/
def c4Doc : Str := "<!-- skillspec:generated:end -->\nSome text".data

/-- The C8 example spec: the scanned prose field `steps[0].action` holds the
string of the claim, while the decision-rule and output-contract semantic
checks are satisfied. -/
def c8Spec : List (Str × PyVal) :=
  [("steps".data, PyVal.vList [PyVal.vDict
      [("id".data, PyVal.vStr "s_one".data),
       ("action".data, PyVal.vStr "Try to validate the input as needed".data)]]),
   ("decision_rules".data, PyVal.vList [PyVal.vDict
      [("id".data, PyVal.vStr "r_one".data),
       ("when".data, PyVal.vStr "x > 0".data),
       ("then".data, PyVal.vDict [("status".data, PyVal.vStr "success".data)])]]),
   ("output_contract".data, PyVal.vDict
      [("format".data, PyVal.vStr "json".data),
       ("schema".data, PyVal.vDict [("type".data, PyVal.vStr "object".data)])])]

/-- A spec dict whose nine required sections are all present, non-null and
(when lists) non-empty except `inputs`, which is the empty list — and which
has no `spec_version` key. -/
def c6NoVersionSpec : List (Str × PyVal) :=
  [("skill".data, PyVal.vDict []),
   ("inputs".data, PyVal.vList []),
   ("preconditions".data, PyVal.vList [PyVal.vStr "x".data]),
   ("non_goals".data, PyVal.vList [PyVal.vStr "y".data]),
   ("decision_rules".data, PyVal.vDict []),
   ("steps".data, PyVal.vList [PyVal.vStr "s".data]),
   ("output_contract".data, PyVal.vDict []),
   ("failure_modes".data, PyVal.vList [PyVal.vStr "f".data]),
   ("edge_cases".data, PyVal.vList [PyVal.vStr "e".data])]

/-- `c6NoVersionSpec` with a `spec_version` key added. -/
def c6WitnessSpec : List (Str × PyVal) :=
  c6NoVersionSpec ++ [("spec_version".data, PyVal.vStr "skill-spec/1.1".data)]

/-- A fully valid spec accepted by the typed model, parameterized by its
`decision_rules` value, with `spec_version: skill-spec/1.2`. -/
def c10Spec (dr : PyVal) : List (Str × PyVal) :=
  [("spec_version".data, PyVal.vStr "skill-spec/1.2".data),
   ("skill".data, PyVal.vDict
      [("name".data, PyVal.vStr "demo-skill".data),
       ("version".data, PyVal.vStr "1.0.0".data),
       ("purpose".data, PyVal.vStr "Do something useful here.".data),
       ("owner".data, PyVal.vStr "team".data)]),
   ("inputs".data, PyVal.vList [PyVal.vDict
      [("name".data, PyVal.vStr "text_in".data),
       ("type".data, PyVal.vStr "string".data),
       ("required".data, PyVal.vBool true)]]),
   ("preconditions".data, PyVal.vList [PyVal.vStr "none".data]),
   ("non_goals".data, PyVal.vList [PyVal.vStr "nothing".data]),
   ("decision_rules".data, dr),
   ("steps".data, PyVal.vList
      [PyVal.vDict [("id".data, PyVal.vStr "s_one".data),
                    ("action".data, PyVal.vStr "Parse input.".data),
                    ("output".data, PyVal.vStr "parsed".data)],
       PyVal.vDict [("id".data, PyVal.vStr "s_two".data),
                    ("action".data, PyVal.vStr "Emit output.".data),
                    ("based_on".data, PyVal.vList [PyVal.vStr "parsed".data])]]),
   ("output_contract".data, PyVal.vDict
      [("format".data, PyVal.vStr "json".data),
       ("schema".data, PyVal.vDict [("type".data, PyVal.vStr "object".data)])]),
   ("failure_modes".data, PyVal.vList [PyVal.vDict
      [("code".data, PyVal.vStr "EMPTY_INPUT".data),
       ("retryable".data, PyVal.vBool false)]]),
   ("edge_cases".data, PyVal.vList [PyVal.vDict
      [("case".data, PyVal.vStr "empty".data),
       ("expected".data, PyVal.vDict [("status".data, PyVal.vStr "error".data)]),
       ("covers_failure".data, PyVal.vStr "EMPTY_INPUT".data)]])]

/-- A marker-free previous document. -/
def c7Doc : Str := "just some prior text".data

/-- Fresh content beginning with a YAML frontmatter block. -/
def c7FmG : Str := "---\nt: 1\n---\nbody".data

/-- Fresh content without frontmatter, for the adoption witness. -/
def c7PlainG : Str := "fresh content".data

/-- A previous document with exactly one manual block. -/
def c1D : Str :=
  "<!-- skillspec:manual:start -->\nkeep\n<!-- skillspec:manual:end -->".data

/-- Fresh generated content that itself contains a manual start/end marker
pair, smuggling an extra manual block into the merged document. -/
def c1G : Str :=
  "<!-- skillspec:manual:start -->\nx\n<!-- skillspec:manual:end -->".data

/-- Marker-free fresh generated content for the round-trip witness. -/
def c1WG : Str := "fresh body".data

/-- A non-empty list-form `decision_rules` value for the C10 witness. -/
def c10Rules : PyVal :=
  PyVal.vList [PyVal.vDict
    [("id".data, PyVal.vStr "r_main".data),
     ("when".data, PyVal.vStr "true".data),
     ("then".data, PyVal.vDict [("status".data, PyVal.vStr "success".data)])]]

/-! ### Theorems -/

/-- A section passing `_check_required_sections` produces no error. -/
lemma sectionErrorFor_none (spec : List (Str × PyVal)) (sec : String)
    (h : sectionOK spec sec = true) : sectionErrorFor spec sec = none := by
  unfold sectionOK at h
  unfold sectionErrorFor
  cases hl : lookupKey spec sec.data with
  | none => rw [hl] at h; cases h
  | some v =>
    rw [hl] at h
    cases v <;> simp_all

/-- With a `spec_version` key present, the version check produces no error
(at worst a warning). -/
lemma specVersion_no_error (spec : List (Str × PyVal))
    (h : hasKey spec "spec_version".data = true) :
    (specVersionFindings spec).1 = [] := by
  unfold hasKey at h
  unfold specVersionFindings
  cases hl : lookupKey spec "spec_version".data with
  | none => rw [hl] at h; cases h
  | some v =>
    simp only []
    split <;> rfl

/-- C2.  Monotonic force semantics: with `force = true` the merge returns
exactly the fresh content as the merged document — byte-identical, with no
markers added and no dependence on the previous document — with `success =
true`, no errors, and the single warning that all existing content was
replaced. -/
theorem c2_force_semantics (D G : Str) :
    merge_with_preservation D G true =
      { success := true, merged_content := G, manual_blocks_preserved := 0,
        generated_blocks_updated := 0, warnings := [forceWarning], errors := [] } := rfl

/-- C4 (the claim as stated is false): on a previous document whose marker
structure is an end marker with no matching start, the merge does not abort:
it reports `success = true` and produces merged content. -/
theorem c4_counterexample :
    (merge_with_preservation c4Doc "new content".data false).success = true ∧
    (merge_with_preservation c4Doc "new content".data false).merged_content ≠ [] ∧
    (merge_with_preservation c4Doc "new content".data false).errors = [] := by decide

/-- C4 (amended).  `merge_with_preservation` never reports a fatal error:
for every previous document, generated content and force flag, the result
has `success = true` and an empty error list — malformed marker structure is
absorbed by the block parser, and abnormal conditions surface only as
warnings. -/
theorem c4_merge_never_fatal (D G : Str) (force : Bool) :
    (merge_with_preservation D G force).success = true ∧
    (merge_with_preservation D G force).errors = [] := by
  unfold merge_with_preservation
  by_cases hf : force
  · simp [hf]
  · simp [hf]
    by_cases hm : (parse_skill_md D).has_markers <;> simp [hm]

/-- C8.  Forbidden-pattern scan on a vague prose field: on the example spec
whose `steps[0].action` (selected by the default scan scope) is
"Try to validate the input as needed", the quality validator with the
default English patterns reports exactly two error-severity violations, one
`VAGUE_CONDITION` matching "as needed" and one `VAGUE_ACTION` matching
"try to" (reported in its original casing "Try to"), and the overall result
is invalid. -/
theorem c8_vague_prose_violations :
    (qualityValidate c8Spec).violations =
      [⟨"steps[0].action".data, "as needed".data, "as needed".data,
        "VAGUE_CONDITION".data, "error".data,
        "Replace with explicit condition".data, none⟩,
       ⟨"steps[0].action".data, "try to".data, "Try to".data,
        "VAGUE_ACTION".data, "error".data,
        "Remove 'try to' and state definite action".data, none⟩] ∧
    (qualityValidate c8Spec).total_errors = 2 ∧
    (qualityValidate c8Spec).valid = false := by decide

/-- C6 (the claim as stated is false): a spec dict whose `inputs` is the
empty list while all other required sections are present, non-null and
non-empty — but which lacks a `spec_version` key — yields two errors, not
exactly one, because `_check_spec_version` also reports the missing
version field. -/
theorem c6_counterexample :
    (∀ sec ∈ REQUIRED_SECTIONS, sec ≠ "inputs" → sectionOK c6NoVersionSpec sec = true) ∧
    lookupKey c6NoVersionSpec "inputs".data = some (PyVal.vList []) ∧
    (schemaValidate c6NoVersionSpec).valid = false ∧
    (schemaValidate c6NoVersionSpec).errors.length = 2 :=
  ⟨by decide, rfl, by decide, by decide⟩

/-- C6 (amended).  Empty-list section detection: for every spec dict that
has a `spec_version` key and whose required sections other than `inputs` all
pass the presence/non-null/non-empty check, while `inputs` is the empty
list, `SchemaValidator.validate` is invalid with exactly one error, whose
path is `inputs` and whose suggestion says to add at least one item to
`inputs`. -/
theorem c6_empty_inputs_detection (spec : List (Str × PyVal))
    (hver : hasKey spec "spec_version".data = true)
    (hsk : sectionOK spec "skill" = true)
    (hpre : sectionOK spec "preconditions" = true)
    (hng : sectionOK spec "non_goals" = true)
    (hdr : sectionOK spec "decision_rules" = true)
    (hst : sectionOK spec "steps" = true)
    (hoc : sectionOK spec "output_contract" = true)
    (hfm : sectionOK spec "failure_modes" = true)
    (hec : sectionOK spec "edge_cases" = true)
    (hinputs : lookupKey spec "inputs".data = some (PyVal.vList [])) :
    (schemaValidate spec).valid = false ∧
    (schemaValidate spec).errors =
      [⟨"inputs".data, "Section 'inputs' is empty".data,
        some "Add at least one item to 'inputs'".data⟩] := by
  have hin : sectionErrorFor spec "inputs" =
      some ⟨"inputs".data, "Section 'inputs' is empty".data,
            some "Add at least one item to 'inputs'".data⟩ := by
    unfold sectionErrorFor
    rw [hinputs]
    rfl
  have e1 : requiredSectionErrors spec =
      [⟨"inputs".data, "Section 'inputs' is empty".data,
        some "Add at least one item to 'inputs'".data⟩] := by
    unfold requiredSectionErrors REQUIRED_SECTIONS
    simp only [List.filterMap_cons, List.filterMap_nil,
      sectionErrorFor_none spec "skill" hsk,
      sectionErrorFor_none spec "preconditions" hpre,
      sectionErrorFor_none spec "non_goals" hng,
      sectionErrorFor_none spec "decision_rules" hdr,
      sectionErrorFor_none spec "steps" hst,
      sectionErrorFor_none spec "output_contract" hoc,
      sectionErrorFor_none spec "failure_modes" hfm,
      sectionErrorFor_none spec "edge_cases" hec, hin]
  have e2 := specVersion_no_error spec hver
  unfold schemaValidate
  simp [e1, e2]

/-- C6 (witness).  The amended empty-inputs claim at a concrete spec dict
(`c6NoVersionSpec` plus a `spec_version` key). -/
theorem c6_witness :
    hasKey c6WitnessSpec "spec_version".data = true ∧
    ((schemaValidate c6WitnessSpec).valid = false ∧
     (schemaValidate c6WitnessSpec).errors =
       [⟨"inputs".data, "Section 'inputs' is empty".data,
         some "Add at least one item to 'inputs'".data⟩]) :=
  ⟨by decide,
   c6_empty_inputs_detection c6WitnessSpec (by decide) (by decide) (by decide)
     (by decide) (by decide) (by decide) (by decide) (by decide) (by decide) rfl⟩

/-- The values a pass of `_check_required_sections` lets through. -/
lemma sectionOK_of_reqField (spec : List (Str × PyVal)) (k : String)
    (p : PyVal → Bool) (h : reqField spec k p = true)
    (hp : ∀ v, p v = true → isDictV v = true) : sectionOK spec k = true := by
  unfold reqField at h
  unfold sectionOK
  cases hl : lookupKey spec k.data with
  | none => rw [hl] at h; cases h
  | some v =>
    rw [hl] at h
    have hv := hp v h
    cases v with
    | vDict d => rfl
    | vBool b => rfl
    | vInt n => rfl
    | vStr s => rfl
    | vNone => simp only [isDictV] at hv; exact Bool.noConfusion hv
    | vList xs => simp only [isDictV] at hv; exact Bool.noConfusion hv

/-- A `min_length = 1` list field passes `_check_required_sections`. -/
lemma sectionOK_of_listField1 (spec : List (Str × PyVal)) (k : String)
    (p : PyVal → Bool) (h : listField1 spec k p = true) :
    sectionOK spec k = true := by
  unfold listField1 at h
  unfold sectionOK
  cases hl : lookupKey spec k.data with
  | none => rw [hl] at h; cases h
  | some v =>
    rw [hl] at h
    cases v <;> simp_all

/-- A valid `decision_rules` value that is not the empty list passes
`_check_required_sections`. -/
lemma sectionOK_of_decisionRules (spec : List (Str × PyVal))
    (h : reqField spec "decision_rules" decisionRulesOK = true)
    (hne : ∀ xs, lookupKey spec "decision_rules".data = some (PyVal.vList xs) → xs ≠ []) :
    sectionOK spec "decision_rules" = true := by
  unfold reqField at h
  unfold sectionOK
  cases hl : lookupKey spec "decision_rules".data with
  | none => rw [hl] at h; cases h
  | some v =>
    rw [hl] at h
    cases v with
    | vList xs =>
      have := hne xs hl
      simp_all
    | vNone => simp [decisionRulesOK] at h
    | vBool b => simp [decisionRulesOK] at h
    | vInt n => simp [decisionRulesOK] at h
    | vStr s => simp [decisionRulesOK] at h
    | vDict d => rfl

/-- The section-level conjuncts of `modelAccepts`. -/
lemma modelAccepts_sections (d : List (Str × PyVal))
    (h : modelAccepts (PyVal.vDict d) = true) :
    reqField d "skill" skillOK = true ∧
    listField1 d "inputs" inputOK = true ∧
    listField1 d "preconditions" isStrV = true ∧
    listField1 d "non_goals" isStrV = true ∧
    reqField d "decision_rules" decisionRulesOK = true ∧
    listField1 d "steps" stepOK = true ∧
    reqField d "output_contract" contractOK = true ∧
    listField1 d "failure_modes" failureOK = true ∧
    listField1 d "edge_cases" edgeOK = true := by
  simp only [modelAccepts, Bool.and_eq_true] at h
  tauto

/-- C10 (the claim as stated is false): a spec dict accepted by the typed
model with `spec_version: skill-spec/1.2` for which `SchemaValidator.validate`
is nevertheless invalid — the model admits an empty `decision_rules` list,
which the schema layer's empty-section check rejects before the typed
validation runs. -/
theorem c10_counterexample :
    modelAccepts (PyVal.vDict (c10Spec (PyVal.vList []))) = true ∧
    lookupKey (c10Spec (PyVal.vList [])) "spec_version".data =
      some (PyVal.vStr "skill-spec/1.2".data) ∧
    (schemaValidate (c10Spec (PyVal.vList []))).valid = false :=
  ⟨by decide, rfl, by decide⟩

/-- C10 (amended).  Version recognition mismatch: for every spec dict
accepted by the typed model with `spec_version: skill-spec/1.2` whose
`decision_rules` is not the empty list, `SchemaValidator.validate` is valid
with no errors, yet always carries the warning at path `spec_version`
reporting the version as unknown — the schema layer recognizes only
`skill-spec/1.0` and `skill-spec/1.1`. -/
theorem c10_version_mismatch (spec : List (Str × PyVal))
    (hacc : modelAccepts (PyVal.vDict spec) = true)
    (hver : lookupKey spec "spec_version".data =
      some (PyVal.vStr "skill-spec/1.2".data))
    (hne : ∀ xs, lookupKey spec "decision_rules".data = some (PyVal.vList xs) → xs ≠ []) :
    (schemaValidate spec).valid = true ∧
    (schemaValidate spec).errors = [] ∧
    (schemaValidate spec).warnings =
      [⟨"spec_version".data, "Unknown spec version: skill-spec/1.2".data,
        some "Use 'skill-spec/1.0' or 'skill-spec/1.1'".data⟩] := by
  obtain ⟨hsk, hin, hpre, hng, hdr, hst, hoc, hfm, hec⟩ := modelAccepts_sections spec hacc
  have hskOK : ∀ v, skillOK v = true → isDictV v = true := by
    intro v hv
    cases v with
    | vDict d => rfl
    | vNone => simp only [skillOK] at hv; exact Bool.noConfusion hv
    | vBool b => simp only [skillOK] at hv; exact Bool.noConfusion hv
    | vInt n => simp only [skillOK] at hv; exact Bool.noConfusion hv
    | vStr s => simp only [skillOK] at hv; exact Bool.noConfusion hv
    | vList xs => simp only [skillOK] at hv; exact Bool.noConfusion hv
  have hocOK : ∀ v, contractOK v = true → isDictV v = true := by
    intro v hv
    cases v with
    | vDict d => rfl
    | vNone => simp only [contractOK] at hv; exact Bool.noConfusion hv
    | vBool b => simp only [contractOK] at hv; exact Bool.noConfusion hv
    | vInt n => simp only [contractOK] at hv; exact Bool.noConfusion hv
    | vStr s => simp only [contractOK] at hv; exact Bool.noConfusion hv
    | vList xs => simp only [contractOK] at hv; exact Bool.noConfusion hv
  have e1 : requiredSectionErrors spec = [] := by
    unfold requiredSectionErrors REQUIRED_SECTIONS
    simp only [List.filterMap_cons, List.filterMap_nil,
      sectionErrorFor_none _ "skill" (sectionOK_of_reqField _ _ _ hsk hskOK),
      sectionErrorFor_none _ "inputs" (sectionOK_of_listField1 _ _ _ hin),
      sectionErrorFor_none _ "preconditions" (sectionOK_of_listField1 _ _ _ hpre),
      sectionErrorFor_none _ "non_goals" (sectionOK_of_listField1 _ _ _ hng),
      sectionErrorFor_none _ "decision_rules" (sectionOK_of_decisionRules _ hdr hne),
      sectionErrorFor_none _ "steps" (sectionOK_of_listField1 _ _ _ hst),
      sectionErrorFor_none _ "output_contract" (sectionOK_of_reqField _ _ _ hoc hocOK),
      sectionErrorFor_none _ "failure_modes" (sectionOK_of_listField1 _ _ _ hfm),
      sectionErrorFor_none _ "edge_cases" (sectionOK_of_listField1 _ _ _ hec)]
  have ev : specVersionFindings spec =
      ([], [⟨"spec_version".data, "Unknown spec version: skill-spec/1.2".data,
            some "Use 'skill-spec/1.0' or 'skill-spec/1.1'".data⟩]) := by
    unfold specVersionFindings
    rw [hver]
    rfl
  unfold schemaValidate
  simp [e1, ev, hacc]

/-- C10 (witness).  The amended version-mismatch claim at a concrete
model-accepted spec with a non-empty `decision_rules` list. -/
theorem c10_witness :
    modelAccepts (PyVal.vDict (c10Spec c10Rules)) = true ∧
    ((schemaValidate (c10Spec c10Rules)).valid = true ∧
     (schemaValidate (c10Spec c10Rules)).errors = [] ∧
     (schemaValidate (c10Spec c10Rules)).warnings =
       [⟨"spec_version".data, "Unknown spec version: skill-spec/1.2".data,
         some "Use 'skill-spec/1.0' or 'skill-spec/1.1'".data⟩]) :=
  ⟨by decide,
   c10_version_mismatch (c10Spec c10Rules) (by decide) rfl
     (by
       intro xs hxs
       have h0 : lookupKey (c10Spec c10Rules) "decision_rules".data =
           some c10Rules := rfl
       rw [h0] at hxs
       unfold c10Rules at hxs
       injection hxs with h1
       injection h1 with h2
       rw [← h2]
       simp)⟩

/-! ### C5: step dependency ordering -/

/-- `producedBefore` at 0 is empty. -/
lemma producedBefore_zero (steps : List ExecutionStep) :
    producedBefore steps 0 = [] := rfl

/-- `producedBefore` over a cons splits off the head step's contribution. -/
lemma producedBefore_cons (s : ExecutionStep) (rest : List ExecutionStep) (i : Nat) :
    producedBefore (s :: rest) (i + 1) = outContrib s ++ producedBefore rest i := by
  unfold producedBefore outContrib
  rw [List.take_succ_cons, List.filterMap_cons]
  cases ho : s.output with
  | none => simp
  | some o =>
    cases o with
    | nil => simp [List.filter_cons]
    | cons c cs => simp [List.filter_cons]

/-- The available set after one step is the old set plus the step's
contribution. -/
lemma stepAvail_eq (s : ExecutionStep) (avail : List Str) :
    (match s.output with
     | some o => if o ≠ [] then avail ++ [o] else avail
     | none => avail) = avail ++ outContrib s := by
  unfold outContrib
  cases s.output with
  | none => simp
  | some o => by_cases he : o = [] <;> simp [he]

/-- Boolean membership test used by the dependency loop. -/
lemma any_eq_mem (l : List Str) (dep : Str) :
    (l.any (fun a => a = dep)) = true ↔ dep ∈ l := by
  constructor
  · intro h
    obtain ⟨x, hx, hp⟩ := List.any_eq_true.mp h
    exact (of_decide_eq_true hp) ▸ hx
  · intro h
    exact List.any_eq_true.mpr ⟨dep, h, by simp⟩

/-- A dependency that the loop's `find?` lets through is in the available
set. -/
lemma mem_avail_of_find?_none (avail deps : List Str) (dep : Str)
    (hf : deps.find? (fun d => !avail.any (fun a => a = d)) = none)
    (hdep : dep ∈ deps) : dep ∈ avail := by
  have hnp := List.find?_eq_none.mp hf dep hdep
  have hx : avail.any (fun a => a = dep) = true := by
    cases hx : avail.any (fun a => a = dep) with
    | false => exact absurd (by rw [hx]; rfl) hnp
    | true => rfl
  exact (any_eq_mem avail dep).mp hx

/-- The dependency loop, from an arbitrary available set, succeeds exactly
when every dependency is either initially available or produced earlier. -/
lemma checkStepDepsFrom_none_iff (steps : List ExecutionStep) (avail : List Str) :
    checkStepDepsFrom steps avail = none ↔
      ∀ i (h : i < steps.length), ∀ dep ∈ ((steps.get ⟨i, h⟩).based_on.getD []),
        dep ∈ avail ∨ dep ∈ producedBefore steps i := by
  induction steps generalizing avail with
  | nil => simp [checkStepDepsFrom]
  | cons s rest ih =>
    unfold checkStepDepsFrom
    cases hf : (s.based_on.getD []).find? (fun dep => !avail.any (fun a => a = dep)) with
    | some dep =>
      simp only []
      constructor
      · intro h; cases h
      · intro h
        have hmem := List.mem_of_find?_eq_some hf
        have hpred := List.find?_some hf
        have hdep := h 0 (Nat.succ_pos _) dep hmem
        rw [producedBefore_zero] at hdep
        simp only [List.mem_nil_iff, or_false] at hdep
        have := (any_eq_mem avail dep).mpr hdep
        rw [this] at hpred
        exact Bool.noConfusion hpred
    | none =>
      simp only []
      rw [stepAvail_eq, ih]
      constructor
      · intro h i hi dep hdep
        cases i with
        | zero =>
          rw [producedBefore_zero]
          exact Or.inl (mem_avail_of_find?_none avail _ dep hf hdep)
        | succ j =>
          have hj : j < rest.length := Nat.lt_of_succ_lt_succ hi
          have hv := h j hj dep hdep
          rw [producedBefore_cons]
          rcases hv with hv | hv
          · rcases List.mem_append.mp hv with hv' | hv'
            · exact Or.inl hv'
            · exact Or.inr (List.mem_append.mpr (Or.inl hv'))
          · exact Or.inr (List.mem_append.mpr (Or.inr hv))
      · intro h j hj dep hdep
        have hv := h (j + 1) (Nat.succ_lt_succ hj) dep hdep
        rw [producedBefore_cons] at hv
        rcases hv with hv | hv
        · exact Or.inl (List.mem_append.mpr (Or.inl hv))
        · rcases List.mem_append.mp hv with hv' | hv'
          · exact Or.inl (List.mem_append.mpr (Or.inr hv'))
          · exact Or.inr hv'

/-- When the dependency loop reports a pair, it names an actual step and an
actual dependency of it that is not available at that point. -/
lemma checkStepDepsFrom_some (steps : List ExecutionStep) (avail : List Str)
    (sid dep : Str) (h : checkStepDepsFrom steps avail = some (sid, dep)) :
    ∃ i, ∃ hi : i < steps.length,
      (steps.get ⟨i, hi⟩).id = sid ∧
      dep ∈ ((steps.get ⟨i, hi⟩).based_on.getD []) ∧
      dep ∉ avail ∧ dep ∉ producedBefore steps i := by
  induction steps generalizing avail with
  | nil => cases h
  | cons s rest ih =>
    unfold checkStepDepsFrom at h
    cases hf : (s.based_on.getD []).find? (fun d => !avail.any (fun a => a = d)) with
    | some d =>
      rw [hf] at h
      simp only [Option.some.injEq, Prod.mk.injEq] at h
      obtain ⟨hid, hd⟩ := h
      subst hd
      refine ⟨0, Nat.succ_pos _, hid, List.mem_of_find?_eq_some hf, ?_, ?_⟩
      · intro hc
        have hpred := List.find?_some hf
        have := (any_eq_mem avail d).mpr hc
        rw [this] at hpred
        exact Bool.noConfusion hpred
      · rw [producedBefore_zero]
        simp
    | none =>
      rw [hf, stepAvail_eq] at h
      obtain ⟨j, hj, hjid, hjdep, hjnot, hjprod⟩ := ih (avail ++ outContrib s) h
      refine ⟨j + 1, Nat.succ_lt_succ hj, hjid, hjdep, ?_, ?_⟩
      · intro hc; exact hjnot (List.mem_append.mpr (Or.inl hc))
      · rw [producedBefore_cons]
        intro hc
        rcases List.mem_append.mp hc with hv | hv
        · exact hjnot (List.mem_append.mpr (Or.inr hv))
        · exact hjprod hv

/-- `DepsOrdered` is decidable (for concrete witnesses). -/
instance decDepsOrdered (steps : List ExecutionStep) : Decidable (DepsOrdered steps) :=
  decidable_of_iff
    (∀ i (h : i < steps.length), ∀ dep ∈ ((steps.get ⟨i, h⟩).based_on.getD []),
      dep ∈ producedBefore steps i) Iff.rfl

/-- C5.  Step dependency ordering: the cross-reference validator's step loop
reports no violation exactly when every `based_on` entry of every step names
an output produced (via a non-empty `output` field) by a strictly earlier
step in declaration order — so any reordering that satisfies this passes —
and when it does report a violation, the reported pair names an actual step
and an actual dependency of it that no earlier step produced. -/
theorem c5_step_dependency_ordering (steps : List ExecutionStep) :
    (checkStepDeps steps = none ↔ DepsOrdered steps) ∧
    (∀ sid dep, checkStepDeps steps = some (sid, dep) →
       ∃ i, ∃ hi : i < steps.length,
         (steps.get ⟨i, hi⟩).id = sid ∧
         dep ∈ ((steps.get ⟨i, hi⟩).based_on.getD []) ∧
         dep ∉ producedBefore steps i) := by
  constructor
  · unfold checkStepDeps
    rw [checkStepDepsFrom_none_iff]
    unfold DepsOrdered
    constructor
    · intro h i hi dep hdep
      rcases h i hi dep hdep with hv | hv
      · cases hv
      · exact hv
    · intro h i hi dep hdep
      exact Or.inr (h i hi dep hdep)
  · intro sid dep h
    obtain ⟨i, hi, h1, h2, _, h4⟩ := checkStepDepsFrom_some steps [] sid dep h
    exact ⟨i, hi, h1, h2, h4⟩

/-- C5 (witness).  At concrete step lists: the well-ordered pair of steps
passes, and its offending reordering is reported as `(s_two, parsed)` — an
actual step with an actual missing dependency. -/
theorem c5_witness :
    (DepsOrdered c5GoodSteps ∧ checkStepDeps c5GoodSteps = none) ∧
    (checkStepDeps c5BadSteps = some ("s_two".data, "parsed".data) ∧
     ∃ i, ∃ hi : i < c5BadSteps.length,
       (c5BadSteps.get ⟨i, hi⟩).id = "s_two".data ∧
       "parsed".data ∈ ((c5BadSteps.get ⟨i, hi⟩).based_on.getD []) ∧
       "parsed".data ∉ producedBefore c5BadSteps i) :=
  ⟨⟨by decide, (c5_step_dependency_ordering c5GoodSteps).1.mpr (by decide)⟩,
   ⟨rfl, (c5_step_dependency_ordering c5BadSteps).2 "s_two".data "parsed".data rfl⟩⟩

/-! ### C3 and C9: the decision-rule normalizer -/

/-- A dict extended with an `"id"` entry has the `"id"` key. -/
lemma hasKey_append (d : List (Str × PyVal)) (k : Str) (v : PyVal) :
    hasKey (d ++ [(k, v)]) k = true := by
  unfold hasKey lookupKey
  rw [List.find?_append]
  cases hd : d.find? (fun e => e.1 = k) with
  | some e => simp
  | none => simp

/-- Re-assigning ids to a single rule is idempotent. -/
lemma ensureRuleId_idem (i : Nat) (r : PyVal) :
    ensureRuleId i (ensureRuleId i r) = ensureRuleId i r := by
  cases r with
  | vDict d =>
    unfold ensureRuleId
    by_cases h : hasKey d "id".data = true
    · simp [h]
    · simp only [Bool.not_eq_true] at h
      simp [h, hasKey_append]
  | vNone => rfl
  | vBool b => rfl
  | vInt n => rfl
  | vStr s => rfl
  | vList xs => rfl

/-- The enumeration loop of `ensure_rule_ids` is idempotent. -/
lemma ensureRuleIdsFrom_idem (l : List PyVal) : ∀ i,
    ensureRuleIdsFrom i (ensureRuleIdsFrom i l) = ensureRuleIdsFrom i l := by
  induction l with
  | nil => intro i; rfl
  | cons r rest ih =>
    intro i
    simp only [ensureRuleIdsFrom]
    rw [ensureRuleId_idem, ih]

/-- `ensure_rule_ids` is idempotent. -/
lemma ensure_rule_ids_idem (l : List PyVal) :
    ensure_rule_ids (ensure_rule_ids l) = ensure_rule_ids l :=
  ensureRuleIdsFrom_idem l 0

/-- The enumeration loop leaves a list of dict rules that all carry an
`"id"` key unchanged. -/
lemma ensureRuleIdsFrom_of_ids (l : List PyVal)
    (h : ∀ x ∈ l, ∃ d, x = PyVal.vDict d ∧ hasKey d "id".data = true) :
    ∀ i, ensureRuleIdsFrom i l = l := by
  induction l with
  | nil => intro i; rfl
  | cons r rest ih =>
    intro i
    obtain ⟨d, hd, hid⟩ := h r (List.mem_cons_self r rest)
    simp only [ensureRuleIdsFrom]
    rw [ih (fun x hx => h x (List.mem_cons_of_mem r hx))]
    subst hd
    simp [ensureRuleId, hid]

/-- The second pass of `extract_rules` on a canonical
`{"_config": c, "rules": r}` value. -/
lemma extract_rules_canonical (c r : PyVal) :
    extract_rules (PyVal.vDict [("_config".data, c), ("rules".data, r)]) =
      PyVal.vDict [("_config".data, c),
        ("rules".data,
         match r with
         | PyVal.vList l => PyVal.vList (ensure_rule_ids l)
         | r => r)] := by
  cases r <;> rfl

/-- Every rule produced by the legacy keyed branch is a dict carrying an
`"id"` key. -/
lemma keyed_rules_have_ids (entries : List (Str × PyVal)) :
    ∀ x ∈ entries.filterMap (fun e =>
      if e.1 = "_config".data then none
      else
        match e.2 with
        | PyVal.vDict d =>
          some (if hasKey d "id".data then PyVal.vDict d
                else PyVal.vDict (d ++ [("id".data, PyVal.vStr e.1)]))
        | _ => none),
      ∃ d, x = PyVal.vDict d ∧ hasKey d "id".data = true := by
  intro x hx
  obtain ⟨e, _, hg⟩ := List.mem_filterMap.mp hx
  by_cases hc : e.1 = "_config".data
  · rw [if_pos hc] at hg; cases hg
  · rw [if_neg hc] at hg
    cases hv : e.2 with
    | vDict d =>
      rw [hv] at hg
      simp only [Option.some.injEq] at hg
      by_cases hid : hasKey d "id".data = true
      · rw [if_pos hid] at hg
        exact ⟨d, hg.symm, hid⟩
      · rw [if_neg hid] at hg
        exact ⟨d ++ [("id".data, PyVal.vStr e.1)], hg.symm, hasKey_append d _ _⟩
    | vNone => rw [hv] at hg; cases hg
    | vBool b => rw [hv] at hg; cases hg
    | vInt n => rw [hv] at hg; cases hg
    | vStr s => rw [hv] at hg; cases hg
    | vList xs => rw [hv] at hg; cases hg

/-- C3.  Idempotence of decision-rule normalization: applying
`extract_rules` to its own output yields the same value, for every input —
in particular for the three accepted encodings (canonical, legacy keyed,
bare list). -/
theorem c3_normalize_idempotent (x : PyVal) :
    extract_rules (extract_rules x) = extract_rules x := by
  cases x with
  | vNone => rfl
  | vBool b => rfl
  | vInt n => rfl
  | vStr s => rfl
  | vList l =>
    show extract_rules (PyVal.vDict [("_config".data, PyVal.vDict []),
      ("rules".data, PyVal.vList (ensure_rule_ids l))]) = _
    rw [extract_rules_canonical]
    simp only [ensure_rule_ids_idem]
    rfl
  | vDict entries =>
    have h1 : extract_rules (PyVal.vDict entries) =
        match lookupKey entries "rules".data with
        | some rules =>
          PyVal.vDict [("_config".data,
              (lookupKey entries "_config".data).getD (PyVal.vDict [])),
            ("rules".data,
             match rules with
             | PyVal.vList l => PyVal.vList (ensure_rule_ids l)
             | r => r)]
        | none =>
          PyVal.vDict [("_config".data,
              (lookupKey entries "_config".data).getD (PyVal.vDict [])),
            ("rules".data,
             PyVal.vList (entries.filterMap (fun e =>
               if e.1 = "_config".data then none
               else
                 match e.2 with
                 | PyVal.vDict d =>
                   some (if hasKey d "id".data then PyVal.vDict d
                         else PyVal.vDict (d ++ [("id".data, PyVal.vStr e.1)]))
                 | _ => none)))] := by
      simp only [extract_rules]
    rw [h1]
    split
    · rename_i rules heq
      rw [extract_rules_canonical]
      cases rules with
      | vList l => simp only [ensure_rule_ids_idem]
      | vNone => rfl
      | vBool b => rfl
      | vInt n => rfl
      | vStr s => rfl
      | vDict d => rfl
    · rw [extract_rules_canonical]
      simp only []
      rw [show ensure_rule_ids = ensureRuleIdsFrom 0 from rfl]
      rw [ensureRuleIdsFrom_of_ids _ (keyed_rules_have_ids entries) 0]

/-- The length of the enumeration loop's output. -/
lemma ensureRuleIdsFrom_length (l : List PyVal) : ∀ i,
    (ensureRuleIdsFrom i l).length = l.length := by
  induction l with
  | nil => intro i; rfl
  | cons r rest ih => intro i; unfold ensureRuleIdsFrom; simp [ih]

/-- The enumeration loop acts index-wise, shifting by the start index. -/
lemma ensureRuleIdsFrom_getD (l : List PyVal) : ∀ i j, j < l.length →
    (ensureRuleIdsFrom i l).getD j PyVal.vNone =
      ensureRuleId (i + j) (l.getD j PyVal.vNone) := by
  induction l with
  | nil => intro i j h; cases h
  | cons r rest ih =>
    intro i j h
    cases j with
    | zero => rfl
    | succ j' =>
      unfold ensureRuleIdsFrom
      simp only [List.getD_cons_succ]
      rw [ih (i + 1) j' (Nat.lt_of_succ_lt_succ h)]
      congr 1
      omega

/-- The legacy keyed branch, as a filter of the non-`_config` dict-valued
entries keyed with their own key. -/
lemma keyed_branch_eq (entries : List (Str × PyVal)) :
    entries.filterMap (fun e =>
      if e.1 = "_config".data then none
      else
        match e.2 with
        | PyVal.vDict d =>
          some (if hasKey d "id".data then PyVal.vDict d
                else PyVal.vDict (d ++ [("id".data, PyVal.vStr e.1)]))
        | _ => none) =
    (entries.filter (fun e => e.1 ≠ "_config".data && isDictV e.2)).map
      (fun e => keyedWithId e.1 e.2) := by
  induction entries with
  | nil => rfl
  | cons e rest ih =>
    obtain ⟨k, v⟩ := e
    by_cases hc : k = "_config".data
    · subst hc
      rw [List.filterMap_cons_none (by rfl), List.filter_cons_of_neg (by simp), ih]
    · cases v with
      | vDict d =>
        rw [List.filterMap_cons_some (by simp only [if_neg hc]; rfl),
          List.filter_cons_of_pos (by simp [hc, isDictV]), List.map_cons, ih]
        rfl
      | vNone =>
        rw [List.filterMap_cons_none (by simp [if_neg hc]),
          List.filter_cons_of_neg (by simp [isDictV]), ih]
      | vBool b =>
        rw [List.filterMap_cons_none (by simp [if_neg hc]),
          List.filter_cons_of_neg (by simp [isDictV]), ih]
      | vInt n =>
        rw [List.filterMap_cons_none (by simp [if_neg hc]),
          List.filter_cons_of_neg (by simp [isDictV]), ih]
      | vStr s =>
        rw [List.filterMap_cons_none (by simp [if_neg hc]),
          List.filter_cons_of_neg (by simp [isDictV]), ih]
      | vList xs =>
        rw [List.filterMap_cons_none (by simp [if_neg hc]),
          List.filter_cons_of_neg (by simp [isDictV]), ih]

/-- C9.  Deterministic id generation: in the canonical and bare-list
encodings a rule dict lacking an `"id"` key at zero-based position `j`
receives exactly the identifier `rule_<j>` (appended as a new last entry),
a rule that carries an `"id"` key is kept unchanged, the list length is
preserved, and both encodings route through the same enumeration; in the
legacy keyed encoding the rules are the non-`_config` dict-valued entries in
order, each receiving its object key as id when it lacks one and kept
unchanged otherwise. -/
theorem c9_rule_id_generation :
    (∀ (l : List PyVal), (ensure_rule_ids l).length = l.length) ∧
    (∀ (l : List PyVal) (j : Nat), j < l.length →
       ∀ d, l.getD j PyVal.vNone = PyVal.vDict d →
         (hasKey d "id".data = false →
            (ensure_rule_ids l).getD j PyVal.vNone =
              PyVal.vDict (d ++ [("id".data,
                PyVal.vStr ("rule_".data ++ natToStr j))])) ∧
         (hasKey d "id".data = true →
            (ensure_rule_ids l).getD j PyVal.vNone = PyVal.vDict d)) ∧
    (∀ (l : List PyVal), extract_rules (PyVal.vList l) =
       PyVal.vDict [("_config".data, PyVal.vDict []),
                    ("rules".data, PyVal.vList (ensure_rule_ids l))]) ∧
    (∀ entries (rules : List PyVal),
       lookupKey entries "rules".data = some (PyVal.vList rules) →
       extract_rules (PyVal.vDict entries) =
         PyVal.vDict [("_config".data,
            (lookupKey entries "_config".data).getD (PyVal.vDict [])),
           ("rules".data, PyVal.vList (ensure_rule_ids rules))]) ∧
    (∀ entries, hasKey entries "rules".data = false →
       extract_rules (PyVal.vDict entries) =
         PyVal.vDict [("_config".data,
            (lookupKey entries "_config".data).getD (PyVal.vDict [])),
           ("rules".data,
            PyVal.vList ((entries.filter
              (fun e => e.1 ≠ "_config".data && isDictV e.2)).map
              (fun e => keyedWithId e.1 e.2)))]) := by
  refine ⟨fun l => ensureRuleIdsFrom_length l 0, ?_, ?_, ?_, ?_⟩
  · intro l j hj d hd
    have hg := ensureRuleIdsFrom_getD l 0 j hj
    rw [Nat.zero_add, hd] at hg
    constructor
    · intro hid
      rw [show ensure_rule_ids l = ensureRuleIdsFrom 0 l from rfl, hg]
      simp [ensureRuleId, hid]
    · intro hid
      rw [show ensure_rule_ids l = ensureRuleIdsFrom 0 l from rfl, hg]
      simp [ensureRuleId, hid]
  · intro l; rfl
  · intro entries rules hr
    simp only [extract_rules]
    split
    · rename_i rules2 heq
      rw [hr] at heq
      injection heq with h
      subst h
      rfl
    · rename_i heq
      rw [hr] at heq
      exact Option.noConfusion heq
  · intro entries hr
    unfold hasKey at hr
    simp only [extract_rules]
    split
    · rename_i rules2 heq
      rw [heq] at hr
      exact Bool.noConfusion hr
    · rw [keyed_branch_eq]

/-- C9 (witness).  The id-generation facts at concrete inputs: a two-rule
bare list (one rule without id at index 1 gets `rule_1`, one with id at
index 0 keeps it), and a keyed encoding whose rule receives its key. -/
theorem c9_witness :
    ((ensure_rule_ids [PyVal.vDict [("when".data, PyVal.vBool true)],
        PyVal.vDict [("id".data, PyVal.vStr "kept".data)]]).getD 1 PyVal.vNone =
      PyVal.vDict [("id".data, PyVal.vStr "kept".data)]) ∧
    ((ensure_rule_ids [PyVal.vDict [("when".data, PyVal.vBool true)],
        PyVal.vDict [("id".data, PyVal.vStr "kept".data)]]).getD 0 PyVal.vNone =
      PyVal.vDict [("when".data, PyVal.vBool true),
                   ("id".data, PyVal.vStr "rule_0".data)]) ∧
    extract_rules (PyVal.vDict [("r_key".data, PyVal.vDict
        [("when".data, PyVal.vBool true)])]) =
      PyVal.vDict [("_config".data, PyVal.vDict []),
        ("rules".data, PyVal.vList [PyVal.vDict
          [("when".data, PyVal.vBool true),
           ("id".data, PyVal.vStr "r_key".data)]])] :=
  ⟨((c9_rule_id_generation.2.1
      [PyVal.vDict [("when".data, PyVal.vBool true)],
       PyVal.vDict [("id".data, PyVal.vStr "kept".data)]] 1 (by decide)
      [("id".data, PyVal.vStr "kept".data)] rfl).2 rfl),
   ((c9_rule_id_generation.2.1
      [PyVal.vDict [("when".data, PyVal.vBool true)],
       PyVal.vDict [("id".data, PyVal.vStr "kept".data)]] 0 (by decide)
      [("when".data, PyVal.vBool true)] rfl).1 rfl),
   (c9_rule_id_generation.2.2.2.2
      [("r_key".data, PyVal.vDict [("when".data, PyVal.vBool true)])] rfl)⟩

/-! ### C7: first-time adoption of a marker-free document -/

/-- `containsSub` decides substring containment. -/
lemma containsSub_iff (hay needle : Str) :
    containsSub hay needle = true ↔ needle <:+: hay := by
  induction hay with
  | nil =>
    unfold containsSub
    constructor
    · intro h
      split at h
      · rename_i hp
        exact ((List.isPrefixOf_iff_prefix).mp hp).isInfix
      · cases h
    · intro h
      have : needle = [] := List.eq_nil_of_infix_nil h
      subst this
      rfl
  | cons c t ih =>
    unfold containsSub
    by_cases hp : needle.isPrefixOf (c :: t) = true
    · rw [if_pos hp]
      constructor
      · intro _
        exact ((List.isPrefixOf_iff_prefix).mp hp).isInfix
      · intro _; rfl
    · rw [if_neg hp]
      rw [ih]
      rw [List.infix_cons_iff]
      constructor
      · intro h; exact Or.inr h
      · intro h
        rcases h with h | h
        · exact absurd ((List.isPrefixOf_iff_prefix).mpr h) hp
        · exact h

/-- A document containing neither start marker parses as one unmarked
block. -/
lemma parse_no_markers (D : Str)
    (h1 : containsSub D GENERATED_START = false)
    (h2 : containsSub D MANUAL_START = false) :
    parse_skill_md D =
      { blocks := [⟨BlockType.UNMARKED, D, none⟩], raw_content := D,
        has_markers := false } := by
  unfold parse_skill_md
  rw [h1, h2]
  rfl

/-- C7 (the claim as stated is false): a marker-free previous document
merged with fresh content that begins with a frontmatter block does not
produce the content wrapped once in the generated markers — the frontmatter
is placed before the start marker. -/
theorem c7_counterexample :
    (∀ m ∈ allMarkers, containsSub c7Doc m = false) ∧
    (merge_with_preservation c7Doc c7FmG false).merged_content ≠
      GENERATED_START ++ nlChar :: c7FmG ++ nlChar :: GENERATED_END ∧
    (merge_with_preservation c7Doc c7FmG false).merged_content =
      "---\nt: 1\n---\n".data ++ GENERATED_START ++ nlChar :: "body".data ++
        nlChar :: GENERATED_END := by decide

/-- C7 (amended).  No-markers merge adoption: for every previous document
containing none of the four marker strings and every generated content with
no leading frontmatter block, the merge returns exactly the fresh content
wrapped once in the generated start/end markers, with the single warning
that no prior markers were found; the result does not depend on the
previous document's content at all. -/
theorem c7_no_markers_adoption (D G : Str)
    (hD : ∀ m ∈ allMarkers, containsSub D m = false)
    (hG : frontmatterLen G = none) :
    merge_with_preservation D G false =
      { success := true,
        merged_content := GENERATED_START ++ nlChar :: G ++ nlChar :: GENERATED_END,
        manual_blocks_preserved := 0, generated_blocks_updated := 0,
        warnings := [noMarkersWarning], errors := [] } := by
  have h1 := hD GENERATED_START (by simp [allMarkers])
  have h2 := hD MANUAL_START (by simp [allMarkers])
  unfold merge_with_preservation
  rw [if_neg (by simp)]
  rw [parse_no_markers D h1 h2]
  simp only [Bool.not_false, if_true]
  unfold wrap_generated_block frontmatterSplit
  rw [hG]
  rfl

/-- C7 (witness).  The amended adoption claim at a concrete marker-free
document and plain fresh content. -/
theorem c7_witness :
    (∀ m ∈ allMarkers, containsSub c7Doc m = false) ∧
    merge_with_preservation c7Doc c7PlainG false =
      { success := true,
        merged_content :=
          GENERATED_START ++ nlChar :: c7PlainG ++ nlChar :: GENERATED_END,
        manual_blocks_preserved := 0, generated_blocks_updated := 0,
        warnings := [noMarkersWarning], errors := [] } :=
  ⟨by decide, c7_no_markers_adoption c7Doc c7PlainG (by decide) (by decide)⟩

/-! ### C1: round trip of reconciliation

Line machinery: `splitLines`/`joinLines` are mutually inverse in the ways the
parser and the merger rely on, every produced line is newline-free and an
infix of the source string, and a newline-free infix of a `"\n".join` is an
infix of one of the joined lines. -/

/-- `str.split("\n")` never returns an empty list. -/
lemma splitLines_ne_nil (s : Str) : splitLines s ≠ [] := by
  cases s with
  | nil => simp [splitLines]
  | cons c rest =>
    unfold splitLines
    by_cases h : c = nlChar
    · simp [h]
    · rw [if_neg h]
      cases splitLines rest <;> simp

/-- `"\n".join` on a list of two or more lines. -/
lemma joinLines_cons (l : Str) (rest : List Str) (h : rest ≠ []) :
    joinLines (l :: rest) = l ++ nlChar :: joinLines rest := by
  cases rest with
  | nil => exact absurd rfl h
  | cons a t => rfl

/-- Lines produced by `str.split("\n")` contain no newline. -/
lemma nl_not_mem_splitLines (s : Str) : ∀ l ∈ splitLines s, nlChar ∉ l := by
  induction s with
  | nil =>
    intro l hl
    simp only [splitLines, List.mem_singleton] at hl
    subst hl
    simp
  | cons c rest ih =>
    intro l hl
    unfold splitLines at hl
    by_cases h : c = nlChar
    · rw [if_pos h] at hl
      rcases List.mem_cons.mp hl with h0 | h0
      · subst h0; simp
      · exact ih l h0
    · rw [if_neg h] at hl
      cases hsl : splitLines rest with
      | nil => exact absurd hsl (splitLines_ne_nil rest)
      | cons l0 ls =>
        rw [hsl] at hl
        rcases List.mem_cons.mp hl with h0 | h0
        · subst h0
          intro hmem
          rcases List.mem_cons.mp hmem with h1 | h1
          · exact h h1.symm
          · exact ih l0 (by rw [hsl]; exact List.mem_cons_self l0 ls) h1
        · exact ih l (by rw [hsl]; exact List.mem_cons_of_mem l0 h0)

/-- `"\n".join(s.split("\n")) == s`. -/
lemma joinLines_splitLines (s : Str) : joinLines (splitLines s) = s := by
  induction s with
  | nil => rfl
  | cons c rest ih =>
    unfold splitLines
    by_cases h : c = nlChar
    · rw [if_pos h, joinLines_cons _ _ (splitLines_ne_nil rest), ih, h]
      rfl
    · rw [if_neg h]
      cases hsl : splitLines rest with
      | nil => exact absurd hsl (splitLines_ne_nil rest)
      | cons l0 ls =>
        rw [hsl] at ih
        cases ls with
        | nil =>
          simp only [joinLines] at ih ⊢
          rw [ih]
        | cons l1 ls' =>
          simp only [joinLines] at ih ⊢
          rw [List.cons_append, ih]

/-- Splitting distributes over an interior newline. -/
lemma splitLines_append_nl (x y : Str) :
    splitLines (x ++ nlChar :: y) = splitLines x ++ splitLines y := by
  induction x with
  | nil =>
    show splitLines (nlChar :: y) = splitLines [] ++ splitLines y
    simp only [splitLines]
    rw [if_pos trivial]
    rfl
  | cons c x' ih =>
    show splitLines (c :: (x' ++ nlChar :: y)) = splitLines (c :: x') ++ splitLines y
    simp only [splitLines]
    by_cases h : c = nlChar
    · rw [if_pos h, if_pos h, ih]
      rfl
    · rw [if_neg h, if_neg h, ih]
      cases hsx : splitLines x' with
      | nil => exact absurd hsx (splitLines_ne_nil x')
      | cons l0 ls => rfl

/-- A newline-free string splits into itself. -/
lemma splitLines_no_nl (s : Str) (h : nlChar ∉ s) : splitLines s = [s] := by
  induction s with
  | nil => rfl
  | cons c rest ih =>
    unfold splitLines
    rw [if_neg (fun hc => h (by rw [hc]; exact List.mem_cons_self _ _)),
      ih (fun hm => h (List.mem_cons_of_mem _ hm))]

/-- Splitting a `"\n".join` yields the concatenation of the splits. -/
lemma splitLines_join_flat (parts : List Str) (h : parts ≠ []) :
    splitLines (joinLines parts) = parts.flatMap splitLines := by
  induction parts with
  | nil => exact absurd rfl h
  | cons p rest ih =>
    cases rest with
    | nil => simp [joinLines]
    | cons q rest' =>
      rw [joinLines_cons _ _ (by simp), splitLines_append_nl, ih (by simp),
        List.flatMap_cons]
      rfl

/-- The first line of a split is a prefix of the string. -/
lemma head_splitLines_pre (s : Str) : ∀ l0 ls, splitLines s = l0 :: ls → l0 <+: s := by
  induction s with
  | nil =>
    intro l0 ls h
    simp only [splitLines] at h
    injection h with h1 _
    rw [← h1]
  | cons c rest ih =>
    intro l0 ls h
    unfold splitLines at h
    by_cases hc : c = nlChar
    · rw [if_pos hc] at h
      injection h with h1 _
      rw [← h1]
      exact List.nil_prefix
    · rw [if_neg hc] at h
      cases hsl : splitLines rest with
      | nil => exact absurd hsl (splitLines_ne_nil rest)
      | cons m0 ms =>
        rw [hsl] at h
        injection h with h1 _
        rw [← h1]
        exact List.cons_prefix_cons.mpr ⟨rfl, ih m0 ms hsl⟩

/-- Every line of a split is an infix of the string. -/
lemma infixOf_mem_splitLines (s : Str) : ∀ l ∈ splitLines s, l <:+: s := by
  induction s with
  | nil =>
    intro l hl
    simp only [splitLines, List.mem_singleton] at hl
    subst hl
    exact List.nil_infix
  | cons c rest ih =>
    intro l hl
    unfold splitLines at hl
    by_cases hc : c = nlChar
    · rw [if_pos hc] at hl
      rcases List.mem_cons.mp hl with h0 | h0
      · subst h0; exact List.nil_infix
      · exact (ih l h0).trans (List.suffix_cons c rest).isInfix
    · rw [if_neg hc] at hl
      cases hsl : splitLines rest with
      | nil => exact absurd hsl (splitLines_ne_nil rest)
      | cons m0 ms =>
        rw [hsl] at hl
        rcases List.mem_cons.mp hl with h0 | h0
        · subst h0
          exact (List.cons_prefix_cons.mpr ⟨rfl, head_splitLines_pre rest m0 ms hsl⟩).isInfix
        · exact (ih l (by rw [hsl]; exact List.mem_cons_of_mem m0 h0)).trans
            (List.suffix_cons c rest).isInfix

/-- `s.strip()` is an infix of `s`. -/
lemma strip_isInfix (s : Str) : strip s <:+: s := by
  unfold strip
  obtain ⟨u, hu⟩ := List.dropWhile_suffix (l := s) pyIsSpace
  obtain ⟨v, hv⟩ := List.dropWhile_suffix (l := (s.dropWhile pyIsSpace).reverse) pyIsSpace
  have h2 : ((s.dropWhile pyIsSpace).reverse.dropWhile pyIsSpace).reverse ++ v.reverse
      = s.dropWhile pyIsSpace := by
    rw [← List.reverse_append, hv, List.reverse_reverse]
  exact ⟨u, v.reverse, by rw [List.append_assoc, h2, hu]⟩

/-- Every joined line is an infix of the join. -/
lemma elem_infixOf_joinLines (ls : List Str) : ∀ l ∈ ls, l <:+: joinLines ls := by
  induction ls with
  | nil => intro l hl; cases hl
  | cons a rest ih =>
    intro l hl
    cases rest with
    | nil =>
      rcases List.mem_cons.mp hl with h0 | h0
      · subst h0; exact List.infix_rfl
      · cases h0
    | cons b rest' =>
      rw [joinLines_cons _ _ (by simp)]
      rcases List.mem_cons.mp hl with h0 | h0
      · subst h0; exact (List.prefix_append l _).isInfix
      · exact (ih l h0).trans ⟨a ++ [nlChar], [], by simp⟩

/-- A prefix of `x ++ c :: y` avoiding `c` is a prefix of `x`. -/
lemma pre_append_char (m x y : Str) (c : Char) (hp : m <+: x ++ c :: y)
    (hc : c ∉ m) : m <+: x := by
  induction x generalizing m with
  | nil =>
    cases m with
    | nil => exact List.nil_prefix
    | cons b m' =>
      rw [List.nil_append] at hp
      rcases List.cons_prefix_cons.mp hp with ⟨h1, _⟩
      subst h1
      exact absurd (List.mem_cons_self _ _) hc
  | cons a x' ih =>
    cases m with
    | nil => exact List.nil_prefix
    | cons b m' =>
      rw [List.cons_append] at hp
      rcases List.cons_prefix_cons.mp hp with ⟨h1, h2⟩
      subst h1
      exact List.cons_prefix_cons.mpr
        ⟨rfl, ih m' h2 (fun hm => hc (List.mem_cons_of_mem _ hm))⟩

/-- An infix of `x ++ c :: y` avoiding `c` lies in `x` or in `y`. -/
lemma infix_append_char (m x y : Str) (c : Char) (h : m <:+: x ++ c :: y)
    (hc : c ∉ m) : m <:+: x ∨ m <:+: y := by
  induction x generalizing m with
  | nil =>
    rw [List.nil_append] at h
    rcases List.infix_cons_iff.mp h with h0 | h0
    · cases m with
      | nil => exact Or.inl List.nil_infix
      | cons b m' =>
        rcases List.cons_prefix_cons.mp h0 with ⟨h1, _⟩
        subst h1
        exact absurd (List.mem_cons_self _ _) hc
    · exact Or.inr h0
  | cons a x' ih =>
    rw [List.cons_append] at h
    rcases List.infix_cons_iff.mp h with h0 | h0
    · cases m with
      | nil => exact Or.inl List.nil_infix
      | cons b m' =>
        rcases List.cons_prefix_cons.mp h0 with ⟨h1, h2⟩
        subst h1
        have h3 := pre_append_char m' x' y c h2 (fun hm => hc (List.mem_cons_of_mem _ hm))
        exact Or.inl (List.cons_prefix_cons.mpr ⟨rfl, h3⟩).isInfix
    · rcases ih m h0 hc with h1 | h1
      · exact Or.inl (h1.trans (List.suffix_cons a x').isInfix)
      · exact Or.inr h1

/-- A non-empty newline-free infix of a `"\n".join` of newline-free lines is
an infix of one of the lines. -/
lemma infix_joinLines (m : Str) (hm : m ≠ []) (hnl : nlChar ∉ m) :
    ∀ ls : List Str, (∀ l ∈ ls, nlChar ∉ l) → m <:+: joinLines ls →
      ∃ l ∈ ls, m <:+: l := by
  intro ls
  induction ls with
  | nil =>
    intro _ h
    exact absurd (List.eq_nil_of_infix_nil h) hm
  | cons a rest ih =>
    intro hls h
    cases rest with
    | nil => exact ⟨a, List.mem_cons_self _ _, h⟩
    | cons b rest' =>
      rw [joinLines_cons _ _ (by simp)] at h
      rcases infix_append_char m a (joinLines (b :: rest')) nlChar h hnl with h0 | h0
      · exact ⟨a, List.mem_cons_self _ _, h0⟩
      · obtain ⟨l, hl1, hl2⟩ := ih (fun l hl => hls l (List.mem_cons_of_mem _ hl)) h0
        exact ⟨l, List.mem_cons_of_mem _ hl1, hl2⟩

/-- None of the four markers is empty. -/
lemma markers_ne_nil : ∀ m ∈ allMarkers, m ≠ [] := by decide

/-- None of the four markers contains a newline. -/
lemma nl_not_in_markers : ∀ m ∈ allMarkers, nlChar ∉ m := by decide

/-- `lastNlIdx` returns an in-range index whose prefix ends in a newline. -/
lemma lastNlIdx_spec (w : Str) : ∀ k, lastNlIdx w = some k →
    k < w.length ∧ ∃ x, w.take (k + 1) = x ++ [nlChar] := by
  induction w with
  | nil => intro k h; cases h
  | cons c rest ih =>
    intro k h
    unfold lastNlIdx at h
    cases hr : lastNlIdx rest with
    | some k' =>
      rw [hr] at h
      injection h with h1
      subst h1
      obtain ⟨hlt, x, hx⟩ := ih k' hr
      refine ⟨Nat.succ_lt_succ hlt, c :: x, ?_⟩
      rw [List.take_succ_cons, hx]
      rfl
    | none =>
      rw [hr] at h
      by_cases hc : c = nlChar
      · rw [if_pos hc] at h
        injection h with h1
        subst h1
        refine ⟨Nat.succ_pos _, [], ?_⟩
        simp [hc]
      · rw [if_neg hc] at h
        cases h

/-- A successful greedy `\s*\n` match consumes characters ending in a
newline. -/
lemma matchWsNl_spec (v : Str) (r : Nat) (h : matchWsNl v = some r) :
    r ≤ v.length ∧ ∃ x, v.take r = x ++ [nlChar] := by
  unfold matchWsNl at h
  cases hr : lastNlIdx (v.takeWhile pyIsSpace) with
  | none => rw [hr] at h; cases h
  | some k =>
    rw [hr] at h
    injection h with h1
    subst h1
    obtain ⟨hlt, x, hx⟩ := lastNlIdx_spec _ k hr
    have hrun : v.takeWhile pyIsSpace <+: v := List.takeWhile_prefix pyIsSpace
    refine ⟨Nat.le_trans hlt hrun.length_le, x, ?_⟩
    obtain ⟨t, ht⟩ := hrun
    rw [← ht, List.take_append_of_le_length hlt]
    exact hx

/-- A successful `.*?\n---\s*\n` match consumes characters ending in a
newline. -/
lemma matchFmTail_spec (u : Str) : ∀ p, matchFmTail u = some p →
    p ≤ u.length ∧ ∃ x, u.take p = x ++ [nlChar] := by
  induction u with
  | nil => intro p h; cases h
  | cons c rest ih =>
    intro p h
    unfold matchFmTail at h
    by_cases hs : startsWith (c :: rest) "\n---".data = true
    · rw [if_pos hs] at h
      cases hw : matchWsNl ((c :: rest).drop 4) with
      | some j =>
        rw [hw] at h
        injection h with h1
        subst h1
        obtain ⟨hle, x, hx⟩ := matchWsNl_spec _ j hw
        have hpre : ("\n---".data : Str) <+: (c :: rest) :=
          List.isPrefixOf_iff_prefix.mp hs
        have h4 : 4 ≤ (c :: rest).length := hpre.length_le
        have hdl : ((c :: rest).drop 4).length = (c :: rest).length - 4 :=
          List.length_drop 4 _
        constructor
        · omega
        · refine ⟨(c :: rest).take 4 ++ x, ?_⟩
          rw [List.take_add, hx, List.append_assoc]
      | none =>
        rw [hw] at h
        cases hmt : matchFmTail rest with
        | none => rw [hmt] at h; cases h
        | some q =>
          rw [hmt] at h
          injection h with h1
          subst h1
          obtain ⟨hle, x, hx⟩ := ih q hmt
          refine ⟨Nat.succ_le_succ hle, c :: x, ?_⟩
          rw [List.take_succ_cons, hx]
          rfl
    · rw [if_neg hs] at h
      cases hmt : matchFmTail rest with
      | none => rw [hmt] at h; cases h
      | some q =>
        rw [hmt] at h
        injection h with h1
        subst h1
        obtain ⟨hle, x, hx⟩ := ih q hmt
        refine ⟨Nat.succ_le_succ hle, c :: x, ?_⟩
        rw [List.take_succ_cons, hx]
        rfl

/-- A successful candidate try consumes characters ending in a newline. -/
lemma tryFmHeads_spec (t : Str) : ∀ ks p, tryFmHeads t ks = some p →
    p ≤ t.length ∧ ∃ x, t.take p = x ++ [nlChar] := by
  intro ks
  induction ks with
  | nil => intro p h; cases h
  | cons k ks' ih =>
    intro p h
    unfold tryFmHeads at h
    cases hm : matchFmTail (t.drop k) with
    | some mv =>
      rw [hm] at h
      injection h with h1
      subst h1
      obtain ⟨hle, x, hx⟩ := matchFmTail_spec _ mv hm
      have hdl : ((t.drop k).length) = t.length - k := List.length_drop k t
      have hmv : mv ≠ 0 := by
        intro h0
        subst h0
        simp at hx
      constructor
      · omega
      · refine ⟨t.take k ++ x, ?_⟩
        rw [List.take_add, hx, List.append_assoc]
    | none =>
      rw [hm] at h
      exact ih p h

/-- A matched frontmatter block splits the content and ends in a newline. -/
lemma frontmatterSplit_spec (s fm tl : Str) (h : frontmatterSplit s = some (fm, tl)) :
    fm ++ tl = s ∧ ∃ fm0, fm = fm0 ++ [nlChar] := by
  unfold frontmatterSplit at h
  cases hn : frontmatterLen s with
  | none => rw [hn] at h; cases h
  | some n =>
    rw [hn] at h
    injection h with h1
    injection h1 with h2 h3
    subst h2
    subst h3
    refine ⟨List.take_append_drop n s, ?_⟩
    unfold frontmatterLen at hn
    by_cases hs : startsWith s "---".data = true
    · rw [if_pos hs] at hn
      cases ht : tryFmHeads (s.drop 3) (fmHeadCandidates (s.drop 3)) with
      | none => rw [ht] at hn; cases hn
      | some n0 =>
        rw [ht] at hn
        injection hn with h4
        subst h4
        obtain ⟨hle, x, hx⟩ := tryFmHeads_spec _ _ n0 ht
        refine ⟨s.take 3 ++ x, ?_⟩
        show List.take (n0 + 3) s = List.take 3 s ++ x ++ [nlChar]
        rw [Nat.add_comm n0 3, List.take_add, hx, List.append_assoc]
    · rw [if_neg hs] at hn
      cases hn

/-- A line containing no marker takes the accumulate branch of the loop. -/
lemma parseLine_not_marker (bs : List ContentBlock) (cur : List Str)
    (ty : BlockType) (sec : Option Str) (line : Str)
    (h1 : containsSub line GENERATED_START = false)
    (h2 : containsSub line MANUAL_START = false)
    (h3 : containsSub line GENERATED_END = false)
    (h4 : containsSub line MANUAL_END = false) :
    parseLine ⟨bs, cur, ty, sec⟩ line =
      ⟨bs, cur ++ [line], ty,
        if startsWith line "## ".data then some (strip (line.drop 3))
        else if startsWith line "# ".data then some (strip (line.drop 2))
        else sec⟩ := by
  unfold parseLine
  rw [if_neg (by simp [h1]), if_neg (by simp [h2]), if_neg (by simp [h3, h4])]

/-- The empty line takes the accumulate branch and keeps the section hint. -/
lemma parseLine_empty (bs : List ContentBlock) (cur : List Str)
    (ty : BlockType) (sec : Option Str) :
    parseLine ⟨bs, cur, ty, sec⟩ [] = ⟨bs, cur ++ [[]], ty, sec⟩ := by
  rw [parseLine_not_marker bs cur ty sec [] (by decide) (by decide) (by decide)
    (by decide)]
  rfl

/-- The loop at a line that is exactly `GENERATED_START`. -/
lemma parseLine_GS (bs : List ContentBlock) (cur : List Str)
    (ty : BlockType) (sec : Option Str) :
    parseLine ⟨bs, cur, ty, sec⟩ GENERATED_START =
      ⟨if cur ≠ [] then bs ++ [⟨ty, joinLines cur, sec⟩] else bs, [],
        BlockType.GENERATED, sec⟩ := by
  unfold parseLine
  rw [if_pos (by decide)]

/-- The loop at a line that is exactly `MANUAL_START`. -/
lemma parseLine_MS (bs : List ContentBlock) (cur : List Str)
    (ty : BlockType) (sec : Option Str) :
    parseLine ⟨bs, cur, ty, sec⟩ MANUAL_START =
      ⟨if cur ≠ [] then bs ++ [⟨ty, joinLines cur, sec⟩] else bs, [],
        BlockType.MANUAL, sec⟩ := by
  unfold parseLine
  rw [if_neg (by decide), if_pos (by decide)]

/-- The loop at a line that is exactly `GENERATED_END`. -/
lemma parseLine_GE (bs : List ContentBlock) (cur : List Str)
    (ty : BlockType) (sec : Option Str) :
    parseLine ⟨bs, cur, ty, sec⟩ GENERATED_END =
      ⟨bs ++ [⟨ty, joinLines cur, sec⟩], [], BlockType.UNMARKED, sec⟩ := by
  unfold parseLine
  rw [if_neg (by decide), if_neg (by decide), if_pos (by decide)]

/-- The loop at a line that is exactly `MANUAL_END`. -/
lemma parseLine_ME (bs : List ContentBlock) (cur : List Str)
    (ty : BlockType) (sec : Option Str) :
    parseLine ⟨bs, cur, ty, sec⟩ MANUAL_END =
      ⟨bs ++ [⟨ty, joinLines cur, sec⟩], [], BlockType.UNMARKED, sec⟩ := by
  unfold parseLine
  rw [if_neg (by decide), if_neg (by decide), if_pos (by decide)]

/-- Folding the loop over marker-free lines only accumulates them. -/
lemma foldl_clean (lines : List Str) : ∀ (bs : List ContentBlock)
    (cur : List Str) (ty : BlockType) (sec : Option Str),
    (∀ l ∈ lines, ∀ m ∈ allMarkers, containsSub l m = false) →
    ∃ sect, lines.foldl parseLine ⟨bs, cur, ty, sec⟩ = ⟨bs, cur ++ lines, ty, sect⟩ := by
  induction lines with
  | nil => intro bs cur ty sec _; exact ⟨sec, by simp⟩
  | cons l ls ih =>
    intro bs cur ty sec hc
    rw [List.foldl_cons,
      parseLine_not_marker bs cur ty sec l
        (hc l (List.mem_cons_self _ _) GENERATED_START (by simp [allMarkers]))
        (hc l (List.mem_cons_self _ _) MANUAL_START (by simp [allMarkers]))
        (hc l (List.mem_cons_self _ _) GENERATED_END (by simp [allMarkers]))
        (hc l (List.mem_cons_self _ _) MANUAL_END (by simp [allMarkers]))]
    obtain ⟨sect, hs⟩ := ih bs (cur ++ [l]) ty _
      (fun l' hl' => hc l' (List.mem_cons_of_mem _ hl'))
    refine ⟨sect, ?_⟩
    rw [hs]
    simp

/-- The join of clean newline-free lines is marker-free. -/
lemma markerFree_joinLines (cur : List Str)
    (h : ∀ l ∈ cur, nlChar ∉ l ∧ MarkerFree l) : MarkerFree (joinLines cur) := by
  intro m hm hinf
  obtain ⟨l, hl, hinf'⟩ := infix_joinLines m (markers_ne_nil m hm)
    (nl_not_in_markers m hm) cur (fun l hl => (h l hl).1) hinf
  exact (h l hl).2 m hm hinf'

/-- One loop step preserves the cleanliness invariant. -/
lemma parseLine_cleanState (st : ParseState) (line : Str) (hst : CleanState st)
    (hnl : nlChar ∉ line) : CleanState (parseLine st line) := by
  unfold parseLine
  by_cases h1 : containsSub line GENERATED_START = true
  · rw [if_pos h1]
    refine ⟨by simp, ?_⟩
    intro b hb
    by_cases hc : st.cur ≠ []
    · rw [if_pos hc] at hb
      rcases List.mem_append.mp hb with h | h
      · exact hst.2 b h
      · rw [List.mem_singleton] at h
        subst h
        exact markerFree_joinLines st.cur hst.1
    · rw [if_neg hc] at hb
      exact hst.2 b hb
  · rw [if_neg h1]
    by_cases h2 : containsSub line MANUAL_START = true
    · rw [if_pos h2]
      refine ⟨by simp, ?_⟩
      intro b hb
      by_cases hc : st.cur ≠ []
      · rw [if_pos hc] at hb
        rcases List.mem_append.mp hb with h | h
        · exact hst.2 b h
        · rw [List.mem_singleton] at h
          subst h
          exact markerFree_joinLines st.cur hst.1
      · rw [if_neg hc] at hb
        exact hst.2 b hb
    · by_cases h3 : (containsSub line GENERATED_END || containsSub line MANUAL_END) = true
      · rw [if_neg h2, if_pos h3]
        refine ⟨by simp, ?_⟩
        intro b hb
        rcases List.mem_append.mp hb with h | h
        · exact hst.2 b h
        · rw [List.mem_singleton] at h
          subst h
          exact markerFree_joinLines st.cur hst.1
      · rw [if_neg h2, if_neg h3]
        rw [Bool.or_eq_true] at h3
        push_neg at h3
        refine ⟨?_, hst.2⟩
        intro l hl
        rcases List.mem_append.mp hl with h | h
        · exact hst.1 l h
        · rw [List.mem_singleton] at h
          subst h
          refine ⟨hnl, ?_⟩
          intro m hm hinf
          have hcs : containsSub l m = true := (containsSub_iff l m).mpr hinf
          simp only [allMarkers, List.mem_cons, List.not_mem_nil, or_false] at hm
          rcases hm with rfl | rfl | rfl | rfl
          · exact h1 hcs
          · exact h3.1 hcs
          · exact h2 hcs
          · exact h3.2 hcs

/-- Folding the loop over newline-free lines preserves the invariant. -/
lemma foldl_cleanState (lines : List Str) : ∀ st, CleanState st →
    (∀ l ∈ lines, nlChar ∉ l) → CleanState (lines.foldl parseLine st) := by
  induction lines with
  | nil => intro st h _; exact h
  | cons l ls ih =>
    intro st h hnl
    rw [List.foldl_cons]
    exact ih _ (parseLine_cleanState st l h (hnl l (List.mem_cons_self _ _)))
      (fun l' hl' => hnl l' (List.mem_cons_of_mem _ hl'))

/-- `parse_skill_md` on a document containing a start marker. -/
lemma parse_skill_md_markers (D : Str)
    (h : (containsSub D GENERATED_START || containsSub D MANUAL_START) = true) :
    parse_skill_md D =
      { blocks := ((splitLines D).foldl parseLine ⟨[], [], BlockType.UNMARKED, none⟩).blocks ++
          (if ((splitLines D).foldl parseLine ⟨[], [], BlockType.UNMARKED, none⟩).cur ≠ [] then
            [⟨((splitLines D).foldl parseLine ⟨[], [], BlockType.UNMARKED, none⟩).curType,
              joinLines ((splitLines D).foldl parseLine ⟨[], [], BlockType.UNMARKED, none⟩).cur,
              ((splitLines D).foldl parseLine ⟨[], [], BlockType.UNMARKED, none⟩).curSection⟩]
          else []),
        raw_content := D, has_markers := true } := by
  simp [parse_skill_md, h]

/-- Every manual block extracted from any document is marker-free. -/
lemma parse_manual_markerFree (D : Str) :
    ∀ b ∈ (parse_skill_md D).get_manual_blocks, MarkerFree b.content := by
  intro b hb
  simp only [ParsedDocument.get_manual_blocks, List.mem_filter,
    decide_eq_true_eq] at hb
  obtain ⟨hmem, hty⟩ := hb
  by_cases hmk : (containsSub D GENERATED_START || containsSub D MANUAL_START) = true
  · rw [parse_skill_md_markers D hmk] at hmem
    have hcs : CleanState ((splitLines D).foldl parseLine ⟨[], [], BlockType.UNMARKED, none⟩) :=
      foldl_cleanState (splitLines D) _ ⟨by simp, by simp⟩ (nl_not_mem_splitLines D)
    rcases List.mem_append.mp hmem with h | h
    · exact hcs.2 b h
    · by_cases hcur : ((splitLines D).foldl parseLine ⟨[], [], BlockType.UNMARKED, none⟩).cur ≠ []
      · rw [if_pos hcur] at h
        rw [List.mem_singleton] at h
        subst h
        exact markerFree_joinLines _ hcs.1
      · rw [if_neg hcur] at h
        cases h
  · rw [Bool.or_eq_true] at hmk
    push_neg at hmk
    rw [parse_no_markers D (Bool.eq_false_iff.mpr hmk.1) (Bool.eq_false_iff.mpr hmk.2)]
      at hmem
    rw [List.mem_singleton] at hmem
    subst hmem
    exact BlockType.noConfusion hty

/-- Marker-free strings split (after stripping) into marker-free lines. -/
lemma lines_clean_base (s : Str) (h : MarkerFree s) :
    ∀ l ∈ splitLines s, ∀ m ∈ allMarkers, containsSub l m = false := by
  intro l hl m hm
  cases hb : containsSub l m with
  | false => rfl
  | true =>
    have h1 : m <:+: l := (containsSub_iff l m).mp hb
    have h2 : l <:+: s := infixOf_mem_splitLines s l hl
    exact absurd (h1.trans h2) (h m hm)

/-- An infix of a marker-free string is marker-free. -/
lemma markerFree_of_infixOf (s t : Str) (h : MarkerFree t) (hst : s <:+: t) :
    MarkerFree s :=
  fun m hm hinf => h m hm (hinf.trans hst)

/-- A `containsSub`-free string is marker-free. -/
lemma markerFree_of_containsSub (s : Str)
    (h : ∀ m ∈ allMarkers, containsSub s m = false) : MarkerFree s := by
  intro m hm hinf
  have h1 := (containsSub_iff s m).mpr hinf
  rw [h m hm] at h1
  cases h1

/-- The stripped content of a marker-free string splits into clean lines. -/
lemma lines_clean_strip (s : Str) (h : MarkerFree s) :
    ∀ l ∈ splitLines (strip s), ∀ m ∈ allMarkers, containsSub l m = false :=
  lines_clean_base (strip s) (markerFree_of_infixOf _ s h (strip_isInfix s))

/-- The empty line contains no marker. -/
lemma empty_line_clean : ∀ m ∈ allMarkers, containsSub [] m = false := by decide

/-- `manualContents` distributes over append. -/
lemma manualContents_append (xs ys : List ContentBlock) :
    manualContents (xs ++ ys) = manualContents xs ++ manualContents ys := by
  simp [manualContents, List.filter_append]

/-- Running the loop over clean lines wrapped in a generated start/end pair
produces no manual blocks and ends with an empty accumulator. -/
lemma run_gen_wrapped (A B : List Str)
    (hA : ∀ l ∈ A, ∀ m ∈ allMarkers, containsSub l m = false)
    (hB : ∀ l ∈ B, ∀ m ∈ allMarkers, containsSub l m = false) :
    ∃ bs0 s0,
      ((A ++ GENERATED_START :: (B ++ [GENERATED_END])).foldl parseLine
          ⟨[], [], BlockType.UNMARKED, none⟩)
        = ⟨bs0, [], BlockType.UNMARKED, s0⟩ ∧ manualContents bs0 = [] := by
  rw [List.foldl_append]
  obtain ⟨s1, h1⟩ := foldl_clean A [] [] BlockType.UNMARKED none hA
  rw [h1, List.foldl_cons, parseLine_GS]
  by_cases hA0 : A = []
  · subst hA0
    rw [if_neg (by simp)]
    rw [List.foldl_append]
    obtain ⟨s2, h2⟩ := foldl_clean B [] [] BlockType.GENERATED s1 hB
    rw [h2, List.foldl_cons, parseLine_GE, List.foldl_nil]
    exact ⟨_, _, rfl, rfl⟩
  · rw [if_pos (by simp [hA0])]
    rw [List.foldl_append]
    obtain ⟨s2, h2⟩ := foldl_clean B _ [] BlockType.GENERATED s1 hB
    rw [h2, List.foldl_cons, parseLine_GE, List.foldl_nil]
    exact ⟨_, _, rfl, rfl⟩

/-- Running the loop over one merged manual segment flushes one unmarked
separator block and one manual block holding the stripped content. -/
lemma run_segment (ct : Str) (bs : List ContentBlock) (s : Option Str)
    (hb : ∀ l ∈ splitLines (strip ct), ∀ m ∈ allMarkers, containsSub l m = false) :
    ∃ s1 s2,
      (([] :: MANUAL_START :: (splitLines (strip ct) ++ [MANUAL_END])).foldl parseLine
          ⟨bs, [], BlockType.UNMARKED, s⟩)
        = ⟨bs ++ [⟨BlockType.UNMARKED, [], s⟩, ⟨BlockType.MANUAL, strip ct, s1⟩], [],
            BlockType.UNMARKED, s2⟩ := by
  rw [List.foldl_cons, parseLine_empty, List.foldl_cons, parseLine_MS,
    if_pos (by simp)]
  rw [List.foldl_append]
  obtain ⟨s1, h1⟩ := foldl_clean (splitLines (strip ct)) _ [] BlockType.MANUAL s hb
  rw [h1, List.foldl_cons, parseLine_ME, List.foldl_nil]
  refine ⟨s1, s1, ?_⟩
  simp [joinLines, joinLines_splitLines]

/-- Running the loop over all merged manual segments appends, per preserved
block, one unmarked separator and one manual block with the stripped
content. -/
lemma run_segments (mans : List ContentBlock) : ∀ (bs : List ContentBlock) (s : Option Str),
    (∀ b ∈ mans, ∀ l ∈ splitLines (strip b.content), ∀ m ∈ allMarkers,
      containsSub l m = false) →
    ∃ bs' ty' s',
      ((mans.flatMap (fun b =>
          [] :: MANUAL_START :: (splitLines (strip b.content) ++ [MANUAL_END]))).foldl
          parseLine ⟨bs, [], BlockType.UNMARKED, s⟩)
        = ⟨bs', [], ty', s'⟩ ∧
      manualContents bs' = manualContents bs ++ mans.map (fun b => strip b.content) := by
  induction mans with
  | nil =>
    intro bs s _
    exact ⟨bs, BlockType.UNMARKED, s, rfl, by simp⟩
  | cons b rest ih =>
    intro bs s hc
    rw [List.flatMap_cons, List.foldl_append]
    obtain ⟨s1, s2, hseg⟩ := run_segment b.content bs s (hc b (List.mem_cons_self _ _))
    rw [hseg]
    obtain ⟨bs', ty', s', h1, h2⟩ := ih
      (bs ++ [⟨BlockType.UNMARKED, [], s⟩, ⟨BlockType.MANUAL, strip b.content, s1⟩]) s2
      (fun b' hb' => hc b' (List.mem_cons_of_mem _ hb'))
    refine ⟨bs', ty', s', h1, ?_⟩
    rw [h2, manualContents_append, List.map_cons, List.append_assoc]
    rfl

/-- Splitting the lines of the merged manual segments. -/
lemma flatMap_seg_split (mans : List ContentBlock) :
    (mans.flatMap (fun b => [[], MANUAL_START, strip b.content, MANUAL_END])).flatMap
        splitLines
      = mans.flatMap (fun b =>
          [] :: MANUAL_START :: (splitLines (strip b.content) ++ [MANUAL_END])) := by
  induction mans with
  | nil => rfl
  | cons b rest ih =>
    rw [List.flatMap_cons, List.flatMap_cons, List.flatMap_append, ih]
    congr 1

/-- Parsing a `"\n".join` of clean head lines followed by the merged manual
segments recovers exactly the stripped manual contents. -/
lemma parse_join_manual (headLines : List Str) (mans : List ContentBlock)
    (hne : headLines ≠ [])
    (hGSmem : GENERATED_START ∈ headLines)
    (hHL : ∃ bs0 s0,
      ((headLines.flatMap splitLines).foldl parseLine ⟨[], [], BlockType.UNMARKED, none⟩)
        = ⟨bs0, [], BlockType.UNMARKED, s0⟩ ∧ manualContents bs0 = [])
    (hm : ∀ b ∈ mans, ∀ l ∈ splitLines (strip b.content), ∀ m ∈ allMarkers,
      containsSub l m = false) :
    manualContents (parse_skill_md (joinLines (headLines ++
        mans.flatMap (fun b => [[], MANUAL_START, strip b.content, MANUAL_END])))).blocks
      = mans.map (fun b => strip b.content) := by
  have hMLne : headLines ++
      mans.flatMap (fun b => [[], MANUAL_START, strip b.content, MANUAL_END]) ≠ [] :=
    fun hh => hne (List.append_eq_nil.mp hh).1
  have hmk : (containsSub (joinLines (headLines ++
      mans.flatMap (fun b => [[], MANUAL_START, strip b.content, MANUAL_END])))
        GENERATED_START ||
      containsSub (joinLines (headLines ++
        mans.flatMap (fun b => [[], MANUAL_START, strip b.content, MANUAL_END])))
        MANUAL_START) = true := by
    rw [Bool.or_eq_true]
    left
    exact (containsSub_iff _ _).mpr
      (elem_infixOf_joinLines _ GENERATED_START (List.mem_append_left _ hGSmem))
  rw [parse_skill_md_markers _ hmk, splitLines_join_flat _ hMLne,
    List.flatMap_append, flatMap_seg_split, List.foldl_append]
  obtain ⟨bs0, s0, hhl, hmc0⟩ := hHL
  rw [hhl]
  obtain ⟨bs', ty', s', h1, h2⟩ := run_segments mans bs0 s0 hm
  rw [h1, if_neg (by simp), List.append_nil]
  show manualContents bs' = mans.map (fun b => strip b.content)
  rw [h2, hmc0]
  rfl

/-- The preserved-count field of a markered merge is the number of manual
blocks of the previous document. -/
lemma merge_markers_pres (D G : Str)
    (h : (containsSub D GENERATED_START || containsSub D MANUAL_START) = true) :
    (merge_with_preservation D G false).manual_blocks_preserved
      = (parse_skill_md D).get_manual_blocks.length := by
  unfold merge_with_preservation
  rw [if_neg (by simp), parse_skill_md_markers D h]
  rfl

/-- The merged content of a markered merge when the fresh content has a
frontmatter block. -/
lemma merge_markers_content_fm (D G fm tl : Str)
    (h : (containsSub D GENERATED_START || containsSub D MANUAL_START) = true)
    (hfs : frontmatterSplit G = some (fm, tl)) :
    (merge_with_preservation D G false).merged_content
      = joinLines ([strip fm, [], GENERATED_START, strip tl, GENERATED_END] ++
          (parse_skill_md D).get_manual_blocks.flatMap
            (fun b => [[], MANUAL_START, strip b.content, MANUAL_END])) := by
  unfold merge_with_preservation
  rw [if_neg (by simp), parse_skill_md_markers D h, hfs]
  rfl

/-- The merged content of a markered merge when the fresh content has no
frontmatter block. -/
lemma merge_markers_content_nofm (D G : Str)
    (h : (containsSub D GENERATED_START || containsSub D MANUAL_START) = true)
    (hfs : frontmatterSplit G = none) :
    (merge_with_preservation D G false).merged_content
      = joinLines ([GENERATED_START, strip G, GENERATED_END] ++
          (parse_skill_md D).get_manual_blocks.flatMap
            (fun b => [[], MANUAL_START, strip b.content, MANUAL_END])) := by
  unfold merge_with_preservation
  rw [if_neg (by simp), parse_skill_md_markers D h, hfs]
  rfl

/-- The merge on a previous document with neither start marker wraps the
fresh content. -/
lemma merge_nomarkers_eq (D G : Str)
    (h1 : containsSub D GENERATED_START = false)
    (h2 : containsSub D MANUAL_START = false) :
    merge_with_preservation D G false =
      { success := true, merged_content := wrap_generated_block G,
        warnings := [noMarkersWarning] } := by
  unfold merge_with_preservation
  rw [if_neg (by simp), parse_no_markers D h1 h2]
  rfl

/-- Parsing the generated wrap of marker-free content yields no manual
blocks. -/
lemma parse_wrap_manual (G : Str) (hG : MarkerFree G) :
    manualContents (parse_skill_md (wrap_generated_block G)).blocks = [] := by
  cases hfs : frontmatterSplit G with
  | some pr =>
    obtain ⟨fm, tl⟩ := pr
    obtain ⟨hcat, fm0, hfm0⟩ := frontmatterSplit_spec G fm tl hfs
    have hfm0G : fm0 <:+: G :=
      (List.IsPrefix.trans ⟨[nlChar], hfm0.symm⟩ ⟨tl, hcat⟩).isInfix
    have htlG : tl <:+: G := List.IsSuffix.isInfix ⟨fm, hcat⟩
    have hwrap : wrap_generated_block G
        = fm0 ++ nlChar :: (GENERATED_START ++ nlChar :: (tl ++ nlChar :: GENERATED_END)) := by
      simp only [wrap_generated_block, hfs]
      rw [hfm0]
      simp
    rw [hwrap]
    have hmk : (containsSub (fm0 ++ nlChar ::
        (GENERATED_START ++ nlChar :: (tl ++ nlChar :: GENERATED_END))) GENERATED_START ||
      containsSub (fm0 ++ nlChar ::
        (GENERATED_START ++ nlChar :: (tl ++ nlChar :: GENERATED_END))) MANUAL_START) = true := by
      rw [Bool.or_eq_true]
      left
      refine (containsSub_iff _ _).mpr
        ⟨fm0 ++ [nlChar], nlChar :: (tl ++ nlChar :: GENERATED_END), ?_⟩
      simp
    rw [parse_skill_md_markers _ hmk, splitLines_append_nl, splitLines_append_nl,
      splitLines_append_nl, splitLines_no_nl GENERATED_START (by decide),
      splitLines_no_nl GENERATED_END (by decide), List.singleton_append]
    obtain ⟨bs0, s0, hrun, hmc⟩ := run_gen_wrapped (splitLines fm0) (splitLines tl)
      (lines_clean_base fm0 (markerFree_of_infixOf fm0 G hG hfm0G))
      (lines_clean_base tl (markerFree_of_infixOf tl G hG htlG))
    rw [hrun, if_neg (by simp), List.append_nil]
    exact hmc
  | none =>
    have hwrap : wrap_generated_block G
        = GENERATED_START ++ nlChar :: (G ++ nlChar :: GENERATED_END) := by
      simp only [wrap_generated_block, hfs]
      rfl
    rw [hwrap]
    have hmk : (containsSub (GENERATED_START ++ nlChar :: (G ++ nlChar :: GENERATED_END))
        GENERATED_START ||
      containsSub (GENERATED_START ++ nlChar :: (G ++ nlChar :: GENERATED_END))
        MANUAL_START) = true := by
      rw [Bool.or_eq_true]
      left
      refine (containsSub_iff _ _).mpr
        ⟨[], nlChar :: (G ++ nlChar :: GENERATED_END), ?_⟩
      simp
    rw [parse_skill_md_markers _ hmk, splitLines_append_nl, splitLines_append_nl,
      splitLines_no_nl GENERATED_START (by decide),
      splitLines_no_nl GENERATED_END (by decide), List.singleton_append]
    obtain ⟨bs0, s0, hrun, hmc⟩ := run_gen_wrapped [] (splitLines G) (by simp)
      (lines_clean_base G hG)
    rw [List.nil_append] at hrun
    rw [hrun, if_neg (by simp), List.append_nil]
    exact hmc

/-- C1 (the claim as stated is false): when the freshly generated content
itself contains a manual marker pair, the merged document parses to more
manual blocks than the previous document had (2 against 1 here). -/
theorem c1_counterexample :
    ((parse_skill_md c1D).get_manual_blocks).length = 1 ∧
    ((parse_skill_md
        (merge_with_preservation c1D c1G false).merged_content).get_manual_blocks).length
      = 2 :=
  ⟨by decide, by decide⟩

/-- C1 (amended).  Round trip of reconciliation: for every previous document
D and every freshly generated content G containing none of the four marker
strings, merging without force yields a document whose parse holds exactly
the manual blocks `parse_skill_md D` extracts, in the same order, each
preserved content equal to the original's up to leading/trailing whitespace
(it is the Python `strip` of the original), and the result counts them in
`manual_blocks_preserved`. -/
theorem c1_round_trip (D G : Str)
    (hG : ∀ m ∈ allMarkers, containsSub G m = false) :
    ((parse_skill_md
        (merge_with_preservation D G false).merged_content).get_manual_blocks).map
          (fun b => b.content)
      = ((parse_skill_md D).get_manual_blocks).map (fun b => strip b.content) ∧
    ((parse_skill_md
        (merge_with_preservation D G false).merged_content).get_manual_blocks).length
      = ((parse_skill_md D).get_manual_blocks).length ∧
    (merge_with_preservation D G false).manual_blocks_preserved
      = ((parse_skill_md D).get_manual_blocks).length := by
  have hGmf : MarkerFree G := markerFree_of_containsSub G hG
  by_cases hmk : (containsSub D GENERATED_START || containsSub D MANUAL_START) = true
  · have hm : ∀ b ∈ (parse_skill_md D).get_manual_blocks,
        ∀ l ∈ splitLines (strip b.content), ∀ m ∈ allMarkers, containsSub l m = false :=
      fun b hb => lines_clean_strip b.content (parse_manual_markerFree D b hb)
    have hcontents :
        manualContents (parse_skill_md
            (merge_with_preservation D G false).merged_content).blocks
          = ((parse_skill_md D).get_manual_blocks).map (fun b => strip b.content) := by
      cases hfs : frontmatterSplit G with
      | some pr =>
        obtain ⟨fm, tl⟩ := pr
        obtain ⟨hcat, fm0, hfm0⟩ := frontmatterSplit_spec G fm tl hfs
        have hfmG : MarkerFree fm :=
          markerFree_of_infixOf fm G hGmf (List.IsPrefix.isInfix ⟨tl, hcat⟩)
        have htlG : MarkerFree tl :=
          markerFree_of_infixOf tl G hGmf (List.IsSuffix.isInfix ⟨fm, hcat⟩)
        rw [merge_markers_content_fm D G fm tl hmk hfs]
        refine parse_join_manual _ _ (by simp) (by simp) ?_ hm
        have hfl : ([strip fm, [], GENERATED_START, strip tl, GENERATED_END] :
              List Str).flatMap splitLines
            = (splitLines (strip fm) ++ [[]]) ++
              GENERATED_START :: (splitLines (strip tl) ++ [GENERATED_END]) := by
          rw [List.flatMap_cons, List.flatMap_cons, List.flatMap_cons, List.flatMap_cons,
            List.flatMap_cons, List.flatMap_nil,
            splitLines_no_nl GENERATED_START (by decide),
            splitLines_no_nl GENERATED_END (by decide)]
          simp [splitLines]
        obtain ⟨bs0, s0, hrun, hmc0⟩ := run_gen_wrapped
          (splitLines (strip fm) ++ [[]]) (splitLines (strip tl))
          (fun l hl => by
            rcases List.mem_append.mp hl with h | h
            · exact lines_clean_strip fm hfmG l h
            · rw [List.mem_singleton] at h
              subst h
              exact empty_line_clean)
          (lines_clean_strip tl htlG)
        exact ⟨bs0, s0, by rw [hfl]; exact hrun, hmc0⟩
      | none =>
        rw [merge_markers_content_nofm D G hmk hfs]
        refine parse_join_manual _ _ (by simp) (by simp) ?_ hm
        have hfl : ([GENERATED_START, strip G, GENERATED_END] : List Str).flatMap splitLines
            = GENERATED_START :: (splitLines (strip G) ++ [GENERATED_END]) := by
          rw [List.flatMap_cons, List.flatMap_cons, List.flatMap_cons, List.flatMap_nil,
            splitLines_no_nl GENERATED_START (by decide),
            splitLines_no_nl GENERATED_END (by decide)]
          simp
        obtain ⟨bs0, s0, hrun, hmc0⟩ := run_gen_wrapped [] (splitLines (strip G))
          (by simp) (lines_clean_strip G hGmf)
        rw [List.nil_append] at hrun
        exact ⟨bs0, s0, by rw [hfl]; exact hrun, hmc0⟩
    have hmapeq : ((parse_skill_md
        (merge_with_preservation D G false).merged_content).get_manual_blocks).map
          (fun b => b.content)
        = ((parse_skill_md D).get_manual_blocks).map (fun b => strip b.content) :=
      hcontents
    refine ⟨hmapeq, ?_, merge_markers_pres D G hmk⟩
    have h1 := congrArg List.length hmapeq
    rw [List.length_map, List.length_map] at h1
    exact h1
  · rw [Bool.or_eq_true] at hmk
    push_neg at hmk
    have h1 : containsSub D GENERATED_START = false := Bool.eq_false_iff.mpr hmk.1
    have h2 : containsSub D MANUAL_START = false := Bool.eq_false_iff.mpr hmk.2
    have holdnil : (parse_skill_md D).get_manual_blocks = [] := by
      rw [parse_no_markers D h1 h2]
      rfl
    have hmrg := merge_nomarkers_eq D G h1 h2
    have hcontent : (merge_with_preservation D G false).merged_content
        = wrap_generated_block G := by rw [hmrg]
    have hpres : (merge_with_preservation D G false).manual_blocks_preserved = 0 := by
      rw [hmrg]
    have hwmc := parse_wrap_manual G hGmf
    refine ⟨?_, ?_, ?_⟩
    · rw [hcontent, holdnil]
      show manualContents (parse_skill_md (wrap_generated_block G)).blocks
          = List.map (fun b => strip b.content) ([] : List ContentBlock)
      rw [hwmc]
      rfl
    · rw [hcontent, holdnil]
      have h3 : ((parse_skill_md (wrap_generated_block G)).get_manual_blocks).map
          (fun b => b.content) = [] := hwmc
      have h4 := congrArg List.length h3
      rw [List.length_map] at h4
      exact h4
    · rw [hpres, holdnil]
      rfl

/-- C1 (witness).  The amended round trip at a concrete one-manual-block
previous document and marker-free fresh content. -/
theorem c1_witness :
    (∀ m ∈ allMarkers, containsSub c1WG m = false) ∧
    (((parse_skill_md
        (merge_with_preservation c1D c1WG false).merged_content).get_manual_blocks).map
          (fun b => b.content)
      = ((parse_skill_md c1D).get_manual_blocks).map (fun b => strip b.content) ∧
    ((parse_skill_md
        (merge_with_preservation c1D c1WG false).merged_content).get_manual_blocks).length
      = ((parse_skill_md c1D).get_manual_blocks).length ∧
    (merge_with_preservation c1D c1WG false).manual_blocks_preserved
      = ((parse_skill_md c1D).get_manual_blocks).length) :=
  ⟨by decide, c1_round_trip c1D c1WG (by decide)⟩

end SkillSpecProof
